import Mathlib

/-
Verification of the test-file resolution scripts of this repository:
  tools/test_generator/backend/scripts/find_related_test_files.py
  tools/test_generator/frontend/scripts/find_related_test_files.py
  tools/test_generator/frontend/scripts/find_related_files.py

The Python code is shallowly embedded: paths are strings, the filesystem is an
explicit list of existing regular files (directories exist implicitly as the
proper prefixes of files, matching the semantics of os.path.exists, which is
true for directories as well), file reading and import extraction are passed
as explicit oracles (a content function and an extraction function), since the
claims under study never depend on the internals of the regular-expression
extraction, only on its result list.

Modelling conventions, stated once here:
  * String primitives (split, replace, lower, trim, prefix tests) are
    re-implemented over the character list of the string so that every
    definition evaluates inside the kernel; each mirrors the CPython string
    method it stands for.
  * os.path.normpath is implemented component-wise exactly as in CPython
    posixpath (empty and "." components dropped, ".." popping a previous
    component unless at the root of an absolute path or following an
    unresolvable ".." of a relative path).
  * str(Path(p).resolve()) is modelled as normpath p; this is faithful when p
    is absolute and no symbolic links are involved, and every theorem below
    instantiates workspace roots with absolute paths.
  * os.path.relpath is modelled purely on the two arguments; this is faithful
    when both are absolute or both are relative to the same working directory.
  * os.walk enumeration order is modelled as the order of the file list; the
    claims about the walk are order-insensitive.
  * list(set(xs)) has unspecified order in CPython; it is modelled as
    first-occurrence deduplication, and theorems about deduplicated results
    are stated at the level of membership.
-/

/-- The filesystem: the list of existing regular files, each given as a
normalized path (no ".", "..", empty or trailing components). -/
structure FS where
  files : List String

/-- str.startswith. -/
def sStartsWith (s pre : String) : Bool := pre.data.isPrefixOf s.data

/-- str.endswith. -/
def sEndsWith (s suf : String) : Bool := suf.data.isSuffixOf s.data

/-- Prefix test with the prefix as the first argument. -/
def sIsPrefixOf (pre s : String) : Bool := pre.data.isPrefixOf s.data

/-- s[n:] for a byte-free model of the string. -/
def sDrop (s : String) (n : Nat) : String := String.mk (s.data.drop n)

/-- str.lower (ASCII-level, via Char.toLower). -/
def sToLower (s : String) : String := String.mk (s.data.map Char.toLower)

/-- str.strip() with no argument: remove surrounding whitespace. -/
def sTrim (s : String) : String :=
  String.mk (((s.data.dropWhile Char.isWhitespace).reverse.dropWhile Char.isWhitespace).reverse)

/-- Python's `c in s` for a single character. -/
def sContainsChar (s : String) (c : Char) : Bool := s.data.contains c

/-- Substring search over character lists. -/
def listInfix (nd : List Char) : List Char → Bool
  | [] => nd.isEmpty
  | c :: rest => nd.isPrefixOf (c :: rest) || listInfix nd rest

/-- Python's `needle in hay` substring test. -/
def substrOf (needle hay : String) : Bool := listInfix needle.data hay.data

/-- str.split("/"), CPython semantics (empty pieces kept). -/
def splitOnSlashAux : List Char → List Char → List String
  | [], acc => [String.mk acc.reverse]
  | c :: rest, acc =>
    if c == '/' then String.mk acc.reverse :: splitOnSlashAux rest []
    else splitOnSlashAux rest (c :: acc)

/-- str.split("/") of a string. -/
def splitOnSlash (s : String) : List String := splitOnSlashAux s.data []

/-- "/".join(pieces). -/
def interSlash : List String → String
  | [] => ""
  | [x] => x
  | x :: y :: rest => x ++ "/" ++ interSlash (y :: rest)

/-- str.replace helper: fuel-driven scan replacing every non-overlapping
occurrence left to right; the fuel is the input length, and each step consumes
at least one character, so the fuel never runs out on the actual calls. -/
def sReplaceAux (nd rep : List Char) : Nat → List Char → List Char
  | _, [] => []
  | 0, l => l
  | fuel + 1, c :: rest =>
    if nd != [] && nd.isPrefixOf (c :: rest) then
      rep ++ sReplaceAux nd rep fuel (rest.drop (nd.length - 1))
    else c :: sReplaceAux nd rep fuel rest

/-- str.replace(nd, rep) for a nonempty pattern nd. -/
def sReplace (s nd rep : String) : String :=
  String.mk (sReplaceAux nd.data rep.data s.data.length s.data)

/-- Rightmost index of a character in a list of characters. -/
def findLastIdx (cs : List Char) (c : Char) : Option Nat :=
  (cs.foldl (fun (st : Nat × Option Nat) ch =>
     (st.1 + 1, if ch == c then some st.1 else st.2)) (0, none)).2

/-- os.path.basename: everything after the last slash. -/
def basename (p : String) : String :=
  match findLastIdx p.data '/' with
  | some i => String.mk (p.data.drop (i + 1))
  | none => p

/-- os.path.dirname: everything before the last slash, with trailing slashes
stripped unless the result consists only of slashes. -/
def dirname (p : String) : String :=
  match findLastIdx p.data '/' with
  | none => ""
  | some i =>
    let head := p.data.take (i + 1)
    if head.all (fun ch => ch == '/') then String.mk head
    else String.mk ((head.reverse.dropWhile (fun ch => ch == '/')).reverse)

/-- os.path.splitext: split off the extension after the last dot of the last
component, unless that component consists only of leading dots up to it. -/
def splitext (p : String) : String × String :=
  let cs := p.data
  let nameStart := match findLastIdx cs '/' with
    | some i => i + 1
    | none => 0
  match findLastIdx cs '.' with
  | none => (p, "")
  | some d =>
    if nameStart ≤ d && ((cs.drop nameStart).take (d - nameStart)).any (fun ch => ch != '.')
    then (String.mk (cs.take d), String.mk (cs.drop d))
    else (p, "")

/-- os.path.join for two arguments (posixpath). -/
def joinPath (a b : String) : String :=
  if sStartsWith b "/" then b
  else if a == "" || sEndsWith a "/" then a ++ b
  else a ++ "/" ++ b

/-- One step of the posixpath.normpath component loop; the accumulator holds
the already-kept components in reverse order. -/
def normStep (isAbs : Bool) (acc : List String) (comp : String) : List String :=
  if comp == "" || comp == "." then acc
  else if comp != ".." then comp :: acc
  else match acc with
    | [] => if isAbs then [] else [".."]
    | prev :: rest => if prev == ".." then comp :: acc else rest

/-- os.path.normpath (posixpath), including the CPython special case keeping
exactly two leading slashes. -/
def normPath (p : String) : String :=
  if p == "" then "." else
  let slashes : Nat :=
    if sStartsWith p "//" && !sStartsWith p "///" then 2
    else if sStartsWith p "/" then 1 else 0
  let acc := (splitOnSlash p).foldl (normStep (slashes > 0)) []
  let r := String.mk (List.replicate slashes '/') ++ interSlash acc.reverse
  if r == "" then "." else r

/-- normalize_path of both scripts: str(Path(path).resolve()), modelled as
normpath (see the module comment). -/
def normalizePath (p : String) : String := normPath p

/-- os.path.exists: true for an existing file, and for a directory, i.e. a
proper prefix (at a component boundary) of an existing file. -/
def pexists (fs : FS) (p : String) : Bool :=
  let q := normPath p
  fs.files.contains q || fs.files.any (fun f => sIsPrefixOf (q ++ "/") f)

/-- Components of a normalized path, used by the relpath model. -/
def pathComps (p : String) : List String :=
  (splitOnSlash (normPath p)).filter (fun c => c != "" && c != ".")

/-- Length of the longest common prefix of two component lists. -/
def commonPrefixLen : List String → List String → Nat
  | a :: as, b :: bs => if a == b then commonPrefixLen as bs + 1 else 0
  | _, _ => 0

/-- os.path.relpath (posixpath), modelled purely on its two arguments (see the
module comment). -/
def relpath (p start : String) : String :=
  let a := pathComps p
  let b := pathComps start
  let i := commonPrefixLen a b
  let rel := List.replicate (b.length - i) ".." ++ a.drop i
  if rel.isEmpty then "." else interSlash rel

/-- First index of an element in a list of strings. -/
def listIndexOf (l : List String) (x : String) : Option Nat :=
  (l.foldl (fun (st : Nat × Option Nat) a =>
     (st.1 + 1, match st.2 with
       | some j => some j
       | none => if a == x then some st.1 else none)) (0, none)).2

example : basename "src/a/b.test.ts" = "b.test.ts" := by decide
example : dirname "src/a/b.test.ts" = "src/a" := by decide
example : dirname "/w" = "/" := by decide
example : dirname "a" = "" := by decide
example : splitext "a.test.js" = ("a.test", ".js") := by decide
example : splitext "./helpers" = ("./helpers", "") := by decide
example : splitext "archive" = ("archive", "") := by decide
example : normPath "src/a/./helpers" = "src/a/helpers" := by decide
example : normPath "/w/src/lib/../x.js" = "/w/src/x.js" := by decide
example : joinPath "/w" "src/x.js" = "/w/src/x.js" := by decide
example : joinPath "/" "tests" = "/tests" := by decide
example : joinPath "/w/src/lib" "/etc/pw" = "/etc/pw" := by decide
example : relpath "/w/src/tests/a.test.js" "/w" = "src/tests/a.test.js" := by decide
example : pexists ⟨["/r/src/a/helpers/index.ts"]⟩ "/r/src/a/helpers" = true := by decide
example : pexists ⟨["/r/src/a/helpers/index.ts"]⟩ "/r/src/a/helpers.ts" = false := by decide
example : sReplace "src/components/x" "src/components" "tests/components" = "tests/components/x" := by decide
example : sToLower "MyButton" = "mybutton" := by decide
example : substrOf "/tests/" "src/tests/a.js" = true := by decide
example : substrOf "/tests/" "tests/a.js" = false := by decide
example : sTrim "  a.js " = "a.js" := by decide
example : listIndexOf ["", "w", "backend", "core"] "backend" = some 2 := by decide

/-- frontend is_test_file, name indicators (find_related_test_files.py,
frontend). -/
def frontendNameIndicator (p : String) : Bool :=
  let fileName := basename p
  sStartsWith fileName "test_" ||
  sEndsWith fileName ".test.js" || sEndsWith fileName ".test.ts" ||
  sEndsWith fileName ".test.svelte" ||
  sEndsWith fileName ".spec.js" || sEndsWith fileName ".spec.ts" ||
  sEndsWith fileName ".spec.svelte"

/-- frontend is_test_file, directory indicators. -/
def frontendDirIndicator (p : String) : Bool :=
  let fileDir := dirname p
  substrOf "/tests/" p || substrOf "/test/" p || substrOf "/__tests__/" p ||
  sEndsWith fileDir "/tests" || sEndsWith fileDir "/test" ||
  sEndsWith fileDir "/__tests__"

/-- frontend is_test_file. -/
def isTestFileFrontend (p : String) : Bool :=
  frontendNameIndicator p || frontendDirIndicator p

/-- backend is_test_file (find_related_test_files.py, backend). -/
def isTestFileBackend (p : String) : Bool :=
  let fileName := basename p
  sStartsWith fileName "test_" || sEndsWith fileName "_test.py" ||
  substrOf "tests_" fileName

/-- The extension/index probe list of resolve_import_to_filepath
(find_related_files.py). -/
def resolveProbeExts : List String :=
  ["", ".js", ".ts", ".tsx", ".jsx", ".svelte", ".mjs", ".cjs",
   "/index.js", "/index.ts", "/index.svelte"]

/-- The static alias table of resolve_import_to_filepath, in source order. -/
def aliasMappings (baseDir : String) : List (String × String) :=
  [("$lib", joinPath (joinPath baseDir "src") "lib"),
   ("$components", joinPath (joinPath baseDir "src") "components"),
   ("$routes", joinPath (joinPath baseDir "src") "routes"),
   ("$assets", joinPath (joinPath baseDir "src") "assets"),
   ("$stores", joinPath (joinPath baseDir "src") "stores"),
   ("@", joinPath baseDir "src"),
   ("~", joinPath baseDir "src")]

/-- The probe loop of resolve_import_to_filepath: first existing path among
base plus each probe suffix. -/
def probeFirst (fs : FS) (base : String) : Option String :=
  (resolveProbeExts.map (fun ext => base ++ ext)).find? (fun p => pexists fs p)

/-- The alias loop of resolve_import_to_filepath: the first alias whose prefix
matches and whose probe hits; a matching alias whose probe misses falls
through to the remaining aliases, exactly as in the source. -/
def resolveAliasLoop (fs : FS) (importPath : String) :
    List (String × String) → Option String
  | [] => none
  | (al, alPath) :: rest =>
    if sStartsWith importPath (al ++ "/") then
      match probeFirst fs (joinPath alPath (sDrop importPath (al.length + 1))) with
      | some p => some p
      | none => resolveAliasLoop fs importPath rest
    else resolveAliasLoop fs importPath rest

/-- resolve_import_to_filepath (find_related_files.py): relative specifiers
are joined to the importing file's directory, normalized and probed
first-hit-wins; other specifiers go through the alias table; everything else
(bare package specifiers) resolves to nothing. -/
def resolveImportToFilepath (fs : FS) (importPath baseDir fileWithImport : String) :
    Option String :=
  if sStartsWith importPath "." then
    probeFirst fs (normPath (joinPath (dirname fileWithImport) importPath))
  else
    resolveAliasLoop fs importPath (aliasMappings baseDir)

example : isTestFileFrontend "src/tests/a.js" = true := by decide
example : isTestFileFrontend "tests/helper.js" = false := by decide
example : isTestFileFrontend "src/a/b.test.ts" = true := by decide
example : isTestFileBackend "tests_x.py" = true := by decide
example : isTestFileBackend "utils.py" = false := by decide
example :
    resolveImportToFilepath ⟨["/r/src/a/helpers.ts"]⟩ "./helpers" "/r" "/r/src/a/b.test.ts"
      = some "/r/src/a/helpers.ts" := by decide
example :
    resolveImportToFilepath ⟨["/r/src/a/helpers/index.ts"]⟩ "./helpers" "/r" "/r/src/a/b.test.ts"
      = some "/r/src/a/helpers" := by decide
example :
    resolveImportToFilepath ⟨["/r/src/lib/x.ts"]⟩ "$lib/x" "/r" "/r/t.test.js"
      = some "/r/src/lib/x.ts" := by decide
example :
    resolveImportToFilepath ⟨["/r/src/x.js", "/r/src/lib/d.ts"]⟩ "$lib/../x" "/r" "/r/t.test.js"
      = some "/r/src/lib/../x.js" := by decide
example : resolveImportToFilepath ⟨["/r/src/a.js"]⟩ "svelte" "/r" "/r/t.js" = none := by decide

/-- A single-quote character, built numerically to keep source scanning
simple. -/
def quoteStr : String := String.singleton (Char.ofNat 39)

/-- str.capitalize: first character upper-cased, the rest lower-cased. -/
def pyCapitalize (w : String) : String :=
  match w.data with
  | [] => ""
  | c :: rest => String.mk (c.toUpper :: rest.map Char.toLower)

/-- words[0].lower() + "".join(w.capitalize() for w in words[1:]). -/
def camelOf (words : List String) : String :=
  match words with
  | [] => ""
  | w :: rest => sToLower w ++ String.join (rest.map pyCapitalize)

/-- "".join(w.capitalize() for w in words). -/
def pascalOf (words : List String) : String :=
  String.join (words.map pyCapitalize)

/-- str.split(sep) for a one-character separator, CPython semantics. -/
def splitOnCharAux (sep : Char) : List Char → List Char → List String
  | [], acc => [String.mk acc.reverse]
  | c :: rest, acc =>
    if c == sep then String.mk acc.reverse :: splitOnCharAux sep rest []
    else splitOnCharAux sep rest (c :: acc)

/-- str.split(sep) of a string, one-character separator. -/
def splitOnChar (s : String) (sep : Char) : List String :=
  splitOnCharAux sep s.data []

/-- The usage-pattern strings of the content heuristic, after .format(name=name).
These are the literal strings the source tests with Python's `in` operator;
the regular-expression metacharacters they contain are part of the literal
text. -/
def usagePatterns (name : String) : List String :=
  [ "import \x7b\\s*" ++ name ++ "\\s*\x7d"
  , "import " ++ name
  , "const " ++ name
  , "let " ++ name
  , "class " ++ name
  , "<" ++ name
  , "render\\(" ++ name
  , "mount\\(" ++ name
  , "test\\([" ++ quoteStr ++ "\"].*" ++ name ++ ".*[" ++ quoteStr ++ "\"]"
  , "describe\\([" ++ quoteStr ++ "\"].*" ++ name ++ ".*[" ++ quoteStr ++ "\"]"
  ]

/-- The content-based reference heuristic of check_import_references_file
(frontend find_related_test_files.py, the try block inside the import loop):
lower-cased content, the derived names in original, camelCase and PascalCase
forms (each lower-cased), the fixed usage patterns tested by substring
containment, and the source-directory basename test for names longer than two
characters. readF is the file-content oracle; none models a read failure
(caught and treated as no match). -/
def contentCheck (readF : String → Option String)
    (testFilePath sourceBaseName sourceDirPath : String) : Bool :=
  match readF testFilePath with
  | none => false
  | some raw =>
    let content := sToLower raw
    let names :=
      [sToLower sourceBaseName]
      ++ (if sContainsChar sourceBaseName '-' then
            let ws := splitOnChar sourceBaseName '-'
            [sToLower (camelOf ws), sToLower (pascalOf ws)]
          else [])
      ++ (if sContainsChar sourceBaseName '_' then
            let ws := splitOnChar sourceBaseName '_'
            [sToLower (camelOf ws), sToLower (pascalOf ws)]
          else [])
    (names.any (fun name => (usagePatterns name).any (fun pat => substrOf pat content)))
    || (let sdn := sToLower (basename sourceDirPath)
        decide (2 < sdn.length) && substrOf sdn content)

/-- The extensions tried by check_import_references_file when the specifier
has no extension. -/
def frontExts : List String := [".js", ".ts", ".svelte", ".jsx", ".tsx"]

/-- The relative-import branch of check_import_references_file. -/
def relBranch (fs : FS) (testFilePath importPath normalizedSource : String) : Bool :=
  let resolvedImport := normPath (joinPath (dirname testFilePath) importPath)
  (if (splitext importPath).2 == "" then
    frontExts.any (fun ext =>
      pexists fs (resolvedImport ++ ext)
        && normalizePath (resolvedImport ++ ext) == normalizedSource)
   else false)
  || (pexists fs resolvedImport && normalizePath resolvedImport == normalizedSource)

/-- The alias branch of check_import_references_file: textual replacement of
each alias prefix (str.replace, so any occurrence is replaced, as in the
source), join to the workspace, then the same extension probing. -/
def aliasBranch (fs : FS) (importPath normalizedSource workspaceDir : String) : Bool :=
  let aliasPath :=
    sReplace (sReplace (sReplace (sReplace importPath
      "$lib/" "src/lib/") "$components/" "src/components/")
      "$routes/" "src/routes/") "$stores/" "src/stores/"
  let fullAliasPath := joinPath workspaceDir aliasPath
  (if (splitext importPath).2 == "" then
    frontExts.any (fun ext =>
      pexists fs (fullAliasPath ++ ext)
        && normalizePath (fullAliasPath ++ ext) == normalizedSource)
   else false)
  || (pexists fs fullAliasPath && normalizePath fullAliasPath == normalizedSource)

/-- check_import_references_file (frontend find_related_test_files.py):
iterates over the extracted import specifiers; each iteration tries the
relative branch or the alias branch for that specifier and then, inside the
same loop body, the content heuristic. With an empty specifier list the loop
body never runs. extract is the extract_imports oracle (the deduplicated
specifier list, [] on a read failure), readF the content oracle. -/
def checkImportReferencesFile (fs : FS) (readF : String → Option String)
    (extract : String → List String)
    (testFilePath sourceFilePath workspaceDir : String) : Bool :=
  let normalizedSource := normalizePath (joinPath workspaceDir sourceFilePath)
  let sourceBaseName := (splitext (basename sourceFilePath)).1
  let sourceDirPath := dirname sourceFilePath
  (extract testFilePath).any (fun importPath =>
    (if sStartsWith importPath "." then
       relBranch fs testFilePath importPath normalizedSource
     else if sStartsWith importPath "$" then
       aliasBranch fs importPath normalizedSource workspaceDir
     else false)
    || contentCheck readF testFilePath sourceBaseName sourceDirPath)

example :
    contentCheck (fun _ => some "<button>click</button>") "/w/tests/a.test.js" "button" "src/ui"
      = true := by decide
example :
    checkImportReferencesFile ⟨[]⟩ (fun _ => some "<button>click</button>") (fun _ => [])
      "/w/tests/a.test.js" "src/ui/button.svelte" "/w" = false := by decide
example :
    checkImportReferencesFile ⟨[]⟩ (fun _ => some "<button>click</button>") (fun _ => ["vitest"])
      "/w/tests/a.test.js" "src/ui/button.svelte" "/w" = true := by decide

/-- One (directory × pattern) scan loop shared by both scripts: for each
directory that exists, every pattern is existence-tested and every hit kept;
there is no early exit inside the loop. -/
def scanDirs (fs : FS) (dirs pats : List String) : List String :=
  match dirs with
  | [] => []
  | d :: rest =>
    (if pexists fs d then
       pats.filterMap (fun pat =>
         if pexists fs (joinPath d pat) then some (joinPath d pat) else none)
     else [])
    ++ scanDirs fs rest pats

/-- First-occurrence deduplication: the `for f in xs: if f not in out` loop of
both main functions, also standing in for list(set(xs)) (see the module
comment). -/
def dedupFirst (l : List String) : List String :=
  l.foldl (fun acc f => if f ∈ acc then acc else acc ++ [f]) []

/-- The frontend test-file naming patterns for a base name and extension. -/
def frontendTestPatterns (n ext : String) : List String :=
  [n ++ ".test" ++ ext, n ++ ".spec" ++ ext, "test_" ++ n ++ ext,
   n ++ ".test.js", n ++ ".spec.js", n ++ ".test.ts", n ++ ".spec.ts"]

/-- The frontend relative test locations for a source directory. -/
def frontendRelativeLocations (sourceDir : String) : List String :=
  [sourceDir, joinPath sourceDir "__tests__", joinPath sourceDir "tests",
   joinPath sourceDir "test"]

/-- The frontend project-level test locations for a (trimmed) source path. -/
def frontendProjectLocations (fp workspaceDir : String) : List String :=
  (if substrOf "src/components" fp then
     [dirname (joinPath workspaceDir (sReplace fp "src/components" "tests/components"))]
   else [])
  ++ (if substrOf "src/routes" fp then
        [dirname (joinPath workspaceDir (sReplace fp "src/routes" "tests/routes"))]
      else [])
  ++ (if substrOf "src/" fp then
        [dirname (joinPath workspaceDir (sReplace fp "src/" "tests/"))]
      else [])
  ++ [joinPath workspaceDir "tests",
      joinPath (joinPath workspaceDir "tests") "e2e",
      joinPath (joinPath workspaceDir "tests") "unit"]

/-- The naming/directory candidate phase of the frontend
find_direct_test_file: the relative-location loop followed by the
project-location loop, both with the full pattern list. -/
def frontendCandidatePhase (fs : FS) (fp workspaceDir : String) : List String :=
  scanDirs fs (frontendRelativeLocations (dirname (joinPath workspaceDir fp)))
    (frontendTestPatterns (splitext (basename fp)).1 (splitext (basename fp)).2)
  ++ scanDirs fs (frontendProjectLocations fp workspaceDir)
    (frontendTestPatterns (splitext (basename fp)).1 (splitext (basename fp)).2)

/-- os.walk over a root collecting files whose name ends in one of the four
test suffixes (the fallback's corpus enumeration); modelled by filtering the
file list for paths under the (normalized) root. -/
def walkTestFiles (fs : FS) (root : String) : List String :=
  fs.files.filter (fun f =>
    sIsPrefixOf (normPath root ++ "/") f &&
    (sEndsWith (basename f) ".test.js" || sEndsWith (basename f) ".test.ts" ||
     sEndsWith (basename f) ".spec.js" || sEndsWith (basename f) ".spec.ts"))

/-- The reference-scanning fallback of the frontend find_direct_test_file:
enumerate test files under workspace/tests and under the source directory,
keep those check_import_references_file accepts. -/
def frontendRefScan (fs : FS) (readF : String → Option String)
    (extract : String → List String) (fp workspaceDir sourceDir : String) :
    List String :=
  (walkTestFiles fs (joinPath workspaceDir "tests") ++ walkTestFiles fs sourceDir).filter
    (fun t => checkImportReferencesFile fs readF extract t fp workspaceDir)

/-- find_direct_test_file (frontend find_related_test_files.py): trim, check
the source exists (else warn and return []), run the candidate phase, fall
back to the reference scan only when the candidate phase found nothing, and
return the relative paths deduplicated. -/
def frontendFindDirectTestFile (fs : FS) (readF : String → Option String)
    (extract : String → List String) (filePath workspaceDir : String) :
    List String :=
  let fp := sTrim filePath
  if pexists fs (joinPath workspaceDir fp) then
    let direct := frontendCandidatePhase fs fp workspaceDir
    let direct2 :=
      if direct.isEmpty then
        frontendRefScan fs readF extract fp workspaceDir
          (dirname (joinPath workspaceDir fp))
      else direct
    dedupFirst (direct2.map (fun t => relpath t workspaceDir))
  else []

/-- The backend test-file naming patterns for a base name. -/
def backendTestPatterns (n : String) : List String :=
  ["test_" ++ n ++ ".py", n ++ "_test.py", "tests_" ++ n ++ ".py", n ++ "_tests.py"]

/-- The primary search locations of the backend find_direct_test_file:
tests/test next to the file, plus the module-level tests/test directories
when a "backend" component occurs in the resolved path. -/
def backendSearchLocations (resolved workspaceDir : String) : List String :=
  [joinPath (dirname resolved) "tests", joinPath (dirname resolved) "test"]
  ++ match listIndexOf (splitOnSlash resolved) "backend" with
     | none => []
     | some i =>
       match (splitOnSlash resolved)[i + 1]? with
       | none => []
       | some m =>
         if m == "" then []
         else
           [joinPath (joinPath (joinPath workspaceDir "backend") m) "tests",
            joinPath (joinPath (joinPath workspaceDir "backend") m) "test"]

/-- The parent-directory fallback locations of the backend
find_direct_test_file. -/
def backendParentLocations (resolved : String) : List String :=
  [joinPath (dirname (dirname resolved)) "tests",
   joinPath (dirname (dirname resolved)) "test"]

/-- The two candidate resolutions of a backend input path: from the workspace
root and from workspace/backend. -/
def backendFullPaths (fp workspaceDir : String) : List String :=
  [joinPath workspaceDir fp, joinPath (joinPath workspaceDir "backend") fp]

/-- find_direct_test_file (backend find_related_test_files.py): resolve the
source against the two roots, scan the primary locations, scan the
parent-directory locations only when the primary scan found nothing, then
normalize and deduplicate. -/
def backendFindDirectTestFile (fs : FS) (filePath workspaceDir : String) :
    List String :=
  let fp := sTrim filePath
  let n := (splitext (basename fp)).1
  match (backendFullPaths fp workspaceDir).find? (fun p => pexists fs p) with
  | none => []
  | some resolved =>
    let direct := scanDirs fs (backendSearchLocations resolved workspaceDir)
      (backendTestPatterns n)
    let direct2 :=
      if direct.isEmpty then
        scanDirs fs (backendParentLocations resolved) (backendTestPatterns n)
      else direct
    dedupFirst (direct2.map normalizePath)

example :
    frontendFindDirectTestFile ⟨["/w/src/a.js", "/w/src/a.test.js"]⟩
      (fun _ => none) (fun _ => []) "src/a.js" "/w" = ["src/a.test.js"] := by decide
example :
    backendFindDirectTestFile ⟨["/w/m.py", "/w/tests/test_m.py"]⟩ "m.py" "/w"
      = ["/w/tests/test_m.py"] := by decide
example :
    backendFindDirectTestFile
      ⟨["/w/backend/core/utils.py", "/w/backend/core/tests/test_utils.py",
        "/w/backend/tests/test_utils.py"]⟩ "backend/core/utils.py" "/w"
      = ["/w/backend/core/tests/test_utils.py"] := by decide

/-- Whether an insertion-ordered association list (a Python dict) has a key. -/
def dictHasKey (m : List (String × List String)) (k : String) : Bool :=
  m.any (fun kv => kv.1 == k)

/-- dict assignment d[k] = v: overwrite in place if the key exists, else
append, preserving insertion order. -/
def dictInsert (m : List (String × List String)) (k : String) (v : List String) :
    List (String × List String) :=
  if dictHasKey m k then m.map (fun kv => if kv.1 == k then (k, v) else kv)
  else m ++ [(k, v)]

/-- d.get(k, dflt). -/
def dictGet (m : List (String × List String)) (k : String) (d : List String) :
    List String :=
  match m.find? (fun kv => kv.1 == k) with
  | some kv => kv.2
  | none => d

/-- The keys of the dict, in insertion order. -/
def dictKeys (m : List (String × List String)) : List String :=
  m.map Prod.fst

/-- The loop state of the frontend main: the flat test-file list (with
duplicates, pre-dedup), the input order, and file_to_tests_map. -/
structure FMState where
  allTestFiles : List String
  sourceFilesList : List String
  fileToTestsMap : List (String × List String)

/-- One line of the frontend main loop: strip, skip blanks, record the input,
pass test files through (only when they exist on disk), otherwise store
find_direct_test_file's result (an empty list is stored explicitly). -/
def frontendStep (fs : FS) (readF : String → Option String)
    (extract : String → List String) (workspaceDir : String)
    (st : FMState) (line : String) : FMState :=
  let fp := sTrim line
  if fp == "" then st
  else
    let st1 : FMState := { st with sourceFilesList := st.sourceFilesList ++ [fp] }
    if isTestFileFrontend fp then
      if pexists fs (joinPath workspaceDir fp) then
        let rel := relpath (joinPath workspaceDir fp) workspaceDir
        { st1 with allTestFiles := st1.allTestFiles ++ [rel],
                   fileToTestsMap := dictInsert st1.fileToTestsMap fp [rel] }
      else st1
    else
      let tests := frontendFindDirectTestFile fs readF extract fp workspaceDir
      if tests.isEmpty then
        { st1 with fileToTestsMap := dictInsert st1.fileToTestsMap fp [] }
      else
        { st1 with allTestFiles := st1.allTestFiles ++ tests,
                   fileToTestsMap := dictInsert st1.fileToTestsMap fp tests }

/-- The frontend main on a list of input lines: returns the deduplicated
superset (all_test_files.txt), file_to_tests_map (test_files_mapping.json)
and related_tests_map (related_tests.json, rebuilt over every recorded input
with [] as default). -/
def frontendMain (fs : FS) (readF : String → Option String)
    (extract : String → List String) (lines : List String)
    (workspaceDir : String) :
    List String × List (String × List String) × List (String × List String) :=
  let st := lines.foldl (frontendStep fs readF extract workspaceDir) ⟨[], [], []⟩
  (dedupFirst st.allTestFiles,
   st.fileToTestsMap,
   st.sourceFilesList.foldl
     (fun m s => dictInsert m s (dictGet st.fileToTestsMap s [])) [])

/-- The loop state of the backend main. -/
structure BMState where
  allTestFiles : List String
  fileToTestsMap : List (String × List String)

/-- One line of the backend main loop: strip, skip blanks, append an existing
test file to the flat list only (never to the mapping), otherwise store
find_direct_test_file's result only when it is nonempty. -/
def backendStep (fs : FS) (workspaceDir : String) (st : BMState) (line : String) :
    BMState :=
  let fp := sTrim line
  if fp == "" then st
  else if isTestFileBackend fp then
    match (backendFullPaths fp workspaceDir).find? (fun p => pexists fs p) with
    | some resolved => { st with allTestFiles := st.allTestFiles ++ [resolved] }
    | none => st
  else
    let tests := backendFindDirectTestFile fs fp workspaceDir
    if tests.isEmpty then st
    else { st with allTestFiles := st.allTestFiles ++ tests,
                   fileToTestsMap := dictInsert st.fileToTestsMap fp tests }

/-- The backend main on a list of input lines: the deduplicated superset
(all_test_files.txt) and file_to_tests_map (test_files_mapping.json, the only
JSON mapping the backend writes). -/
def backendMain (fs : FS) (lines : List String) (workspaceDir : String) :
    List String × List (String × List String) :=
  let st := lines.foldl (backendStep fs workspaceDir) ⟨[], []⟩
  (dedupFirst st.allTestFiles, st.fileToTestsMap)

example :
    (backendMain ⟨["/w/utils.py"]⟩ ["utils.py"] "/w").2 = [] := by decide
example :
    (backendMain ⟨["/w/tests_x.py"]⟩ ["tests_x.py"] "/w")
      = (["/w/tests_x.py"], []) := by decide
example :
    (frontendMain ⟨["/w/src/tests/a.test.js"]⟩ (fun _ => none) (fun _ => [])
      ["src/tests/a.test.js"] "/w").2.2
      = [("src/tests/a.test.js", ["src/tests/a.test.js"])] := by decide
example :
    (frontendMain ⟨["/w3/lib/a.js", "/w3/lib/a.test.js"]⟩ (fun _ => none) (fun _ => [])
      ["lib/a.js"] "/w3").1 = ["lib/a.test.js"] := by decide

/-- A list is a Boolean prefix of itself followed by anything. -/
lemma isPrefixOf_append_self (l b : List Char) : l.isPrefixOf (l ++ b) = true := by
  induction l with
  | nil => simp
  | cons c cs ih => simp [List.isPrefixOf_cons₂, ih]

/-- A short non-prefix stays a non-prefix after extending the target. -/
lemma isPrefixOf_append_of_ne (l : List Char) :
    ∀ a b : List Char, l.length ≤ a.length → l.isPrefixOf a = false →
      l.isPrefixOf (a ++ b) = false := by
  induction l with
  | nil => intro a b _ h; simp at h
  | cons c cs ih =>
    intro a b hlen h
    cases a with
    | nil => simp at hlen
    | cons x xs =>
      cases hcx : c == x with
      | false => simp [List.isPrefixOf_cons₂, hcx]
      | true =>
        simp only [List.cons_append, List.isPrefixOf_cons₂, hcx, Bool.true_and] at h ⊢
        exact ih xs b (by simpa using hlen) h

/-- Membership through the first-occurrence deduplication fold. -/
lemma mem_foldl_addKey (l : List String) :
    ∀ (acc : List String) (x : String),
      (x ∈ l.foldl (fun a f => if f ∈ a then a else a ++ [f]) acc) ↔ x ∈ acc ∨ x ∈ l := by
  induction l with
  | nil => simp
  | cons a t ih =>
    intro acc x
    simp only [List.foldl_cons]
    by_cases h : a ∈ acc
    · rw [if_pos h, ih]
      constructor
      · rintro (hx | hx)
        · exact Or.inl hx
        · exact Or.inr (List.mem_cons_of_mem _ hx)
      · rintro (hx | hx)
        · exact Or.inl hx
        · rcases List.mem_cons.mp hx with rfl | hx
          · exact Or.inl h
          · exact Or.inr hx
    · rw [if_neg h, ih]
      constructor
      · rintro (hx | hx)
        · rcases List.mem_append.mp hx with hx | hx
          · exact Or.inl hx
          · simp at hx; subst hx; exact Or.inr (List.mem_cons_self _ _)
        · exact Or.inr (List.mem_cons_of_mem _ hx)
      · rintro (hx | hx)
        · exact Or.inl (List.mem_append.mpr (Or.inl hx))
        · rcases List.mem_cons.mp hx with rfl | hx
          · exact Or.inl (List.mem_append.mpr (Or.inr (by simp)))
          · exact Or.inr hx

/-- dedupFirst preserves membership. -/
lemma mem_dedupFirst (l : List String) (x : String) : x ∈ dedupFirst l ↔ x ∈ l := by
  unfold dedupFirst
  rw [mem_foldl_addKey]
  simp

/-- The scan loop over an appended directory list splits. -/
lemma scanDirs_append (fs : FS) (d1 d2 pats : List String) :
    scanDirs fs (d1 ++ d2) pats = scanDirs fs d1 pats ++ scanDirs fs d2 pats := by
  induction d1 with
  | nil => simp [scanDirs]
  | cons d rest ih => simp [scanDirs, ih]

/-- Membership in the scan loop: exactly the existing (directory, pattern)
combinations, with no early exit. -/
lemma mem_scanDirs (fs : FS) (dirs pats : List String) (p : String) :
    p ∈ scanDirs fs dirs pats ↔
      ∃ d ∈ dirs, pexists fs d = true ∧
        ∃ pat ∈ pats, p = joinPath d pat ∧ pexists fs p = true := by
  induction dirs with
  | nil => simp [scanDirs]
  | cons d rest ih =>
    simp only [scanDirs, List.mem_append, ih, List.mem_cons]
    constructor
    · rintro (hx | hx)
      · by_cases hd : pexists fs d = true
        · rw [if_pos hd] at hx
          rcases List.mem_filterMap.mp hx with ⟨pat, hpat, hf⟩
          by_cases hpp : pexists fs (joinPath d pat) = true
          · rw [if_pos hpp] at hf
            injection hf with hf
            exact ⟨d, Or.inl rfl, hd, pat, hpat, hf.symm, hf ▸ hpp⟩
          · rw [if_neg hpp] at hf; cases hf
        · rw [if_neg hd] at hx; cases hx
      · rcases hx with ⟨d', hd', rest'⟩
        exact ⟨d', Or.inr hd', rest'⟩
    · rintro ⟨d', hd', hde, pat, hpat, rfl, hpe⟩
      rcases hd' with rfl | hd'
      · left
        rw [if_pos hde]
        exact List.mem_filterMap.mpr ⟨pat, hpat, by rw [if_pos hpe]⟩
      · right
        exact ⟨d', hd', hde, pat, hpat, rfl, hpe⟩

/-- dictHasKey agrees with key membership. -/
lemma dictHasKey_iff (m : List (String × List String)) (k : String) :
    dictHasKey m k = true ↔ k ∈ dictKeys m := by
  simp only [dictHasKey, dictKeys, List.any_eq_true, List.mem_map, beq_iff_eq]

/-- Inserting a fresh key appends the binding. -/
lemma dictInsert_eq_append (m : List (String × List String)) (k : String)
    (v : List String) (h : k ∉ dictKeys m) : dictInsert m k v = m ++ [(k, v)] := by
  rw [dictInsert, if_neg]
  intro hc
  exact h ((dictHasKey_iff m k).mp hc)

/-- Overwriting a key with the value it already has leaves the dict
unchanged. -/
lemma dictInsert_eq_self (m : List (String × List String)) (k : String)
    (v : List String) (hk : k ∈ dictKeys m)
    (h : ∀ kv ∈ m, kv.1 = k → kv.2 = v) : dictInsert m k v = m := by
  rw [dictInsert, if_pos ((dictHasKey_iff m k).mpr hk)]
  have hid : ∀ kv ∈ m, (if kv.1 == k then (k, v) else kv) = kv := by
    rintro ⟨k1, v1⟩ hkv
    by_cases he : k1 = k
    · subst he
      have h2 := h (k1, v1) hkv rfl
      simp only at h2
      subst h2
      simp
    · simp [he]
  rw [List.map_congr_left hid]
  simp

/-- Keys after insertion. -/
lemma dictKeys_insert (m : List (String × List String)) (k : String)
    (v : List String) :
    dictKeys (dictInsert m k v)
      = if k ∈ dictKeys m then dictKeys m else dictKeys m ++ [k] := by
  by_cases h : k ∈ dictKeys m
  · rw [if_pos h, dictInsert, if_pos ((dictHasKey_iff m k).mpr h)]
    unfold dictKeys
    rw [List.map_map]
    apply List.map_congr_left
    intro kv _
    by_cases he : kv.1 = k
    · simp [he]
    · simp [Function.comp, he]
  · rw [if_neg h, dictInsert_eq_append m k v h]
    simp [dictKeys]

/-- Lookup of the inserted key. -/
lemma dictGet_insert_self (m : List (String × List String)) (k : String)
    (v d : List String) : dictGet (dictInsert m k v) k d = v := by
  by_cases h : k ∈ dictKeys m
  · have hf : ∀ kv : String × List String,
        ((fun kv => kv.1 == k) ∘ (fun kv => if kv.1 == k then (k, v) else kv)) kv
          = (fun kv : String × List String => kv.1 == k) kv := by
      intro kv
      by_cases he : kv.1 = k
      · simp [he]
      · simp [he]
    rw [dictInsert, if_pos ((dictHasKey_iff m k).mpr h), dictGet, List.find?_map,
      funext hf]
    have hsome : (m.find? (fun kv => kv.1 == k)).isSome := by
      rw [List.find?_isSome]
      rcases (List.mem_map.mp h) with ⟨kv, hkv, rfl⟩
      exact ⟨kv, hkv, by simp⟩
    cases hfind : m.find? (fun kv => kv.1 == k) with
    | none => rw [hfind] at hsome; simp at hsome
    | some kv0 =>
      have hp := List.find?_some hfind
      simp only [beq_iff_eq] at hp
      simp [hp]
  · rw [dictInsert_eq_append m k v h, dictGet, List.find?_append]
    have hnone : m.find? (fun kv => kv.1 == k) = none := by
      rw [List.find?_eq_none]
      intro kv hkv hc
      simp only [beq_iff_eq] at hc
      exact h (List.mem_map.mpr ⟨kv, hkv, hc⟩)
    simp [hnone, List.find?]

/-- Lookup of a different key is unchanged by insertion. -/
lemma dictGet_insert_other (m : List (String × List String)) (k k' : String)
    (v d : List String) (h : k' ≠ k) :
    dictGet (dictInsert m k v) k' d = dictGet m k' d := by
  by_cases hk : k ∈ dictKeys m
  · have hf : ∀ kv : String × List String,
        ((fun kv => kv.1 == k') ∘ (fun kv => if kv.1 == k then (k, v) else kv)) kv
          = (fun kv : String × List String => kv.1 == k') kv := by
      intro kv
      by_cases he : kv.1 = k
      · simp [he, Ne.symm h, (by simpa using h.symm : (k == k') = false)]
      · simp [he]
    rw [dictInsert, if_pos ((dictHasKey_iff m k).mpr hk), dictGet, List.find?_map,
      funext hf, dictGet]
    cases hfind : m.find? (fun kv => kv.1 == k') with
    | none => rfl
    | some kv0 =>
      have hp := List.find?_some hfind
      simp only [beq_iff_eq] at hp
      have hne : ¬ kv0.1 = k := by rw [hp]; exact h
      simp [hne]
  · rw [dictInsert_eq_append m k v hk, dictGet, List.find?_append, dictGet]
    cases hfind : m.find? (fun kv => kv.1 == k') with
    | none =>
      simp only [Option.none_orElse]
      have : (k == k') = false := by simpa using fun he => h (he.symm)
      simp [List.find?, this]
    | some kv0 => rfl

/-- Keys of the rebuild fold equal the addKey fold of the inserted keys. -/
lemma dictKeys_foldBuild (g : String → List String) :
    ∀ (l : List String) (m0 : List (String × List String)),
      dictKeys (l.foldl (fun m s => dictInsert m s (g s)) m0)
        = l.foldl (fun ks s => if s ∈ ks then ks else ks ++ [s]) (dictKeys m0) := by
  intro l
  induction l with
  | nil => intro m0; rfl
  | cons a t ih =>
    intro m0
    simp only [List.foldl_cons]
    rw [ih, dictKeys_insert]

/-- A key never inserted by the fold keeps its original lookup. -/
lemma foldBuild_get_not_mem (g : String → List String) :
    ∀ (l : List String) (m0 : List (String × List String)) (k : String)
      (d : List String), k ∉ l →
      dictGet (l.foldl (fun m s => dictInsert m s (g s)) m0) k d = dictGet m0 k d := by
  intro l
  induction l with
  | nil => intro m0 k d _; rfl
  | cons a t ih =>
    intro m0 k d hk
    simp only [List.foldl_cons]
    rw [ih _ _ _ (fun h => hk (List.mem_cons_of_mem _ h)),
      dictGet_insert_other _ _ _ _ _
        (fun h => hk (by rw [h]; exact List.mem_cons_self _ _))]

/-- A key inserted by the fold looks up its generated value. -/
lemma foldBuild_get_mem (g : String → List String) :
    ∀ (l : List String) (m0 : List (String × List String)) (k : String)
      (d : List String), k ∈ l →
      dictGet (l.foldl (fun m s => dictInsert m s (g s)) m0) k d = g k := by
  intro l
  induction l with
  | nil => intro m0 k d hk; simp at hk
  | cons a t ih =>
    intro m0 k d hk
    simp only [List.foldl_cons]
    by_cases ht : k ∈ t
    · exact ih _ _ _ ht
    · rcases List.mem_cons.mp hk with rfl | h2
      · rw [foldBuild_get_not_mem g t _ k d ht, dictGet_insert_self]
      · exact absurd h2 ht

/-- Entries of the rebuild fold: the original entries plus one generated entry
per inserted key, provided the original entries already agree with the
generator. -/
lemma mem_foldBuild (g : String → List String) :
    ∀ (l : List String) (m0 : List (String × List String)),
      (∀ kv ∈ m0, kv.2 = g kv.1) →
      ∀ kv : String × List String,
        (kv ∈ l.foldl (fun m s => dictInsert m s (g s)) m0
          ↔ kv ∈ m0 ∨ (kv.1 ∈ l ∧ kv.2 = g kv.1)) := by
  intro l
  induction l with
  | nil => intro m0 _ kv; simp
  | cons a t ih =>
    intro m0 h0 kv
    simp only [List.foldl_cons]
    by_cases ha : a ∈ dictKeys m0
    · have hsame : dictInsert m0 a (g a) = m0 :=
        dictInsert_eq_self m0 a (g a) ha (fun kv hkv he => by rw [h0 kv hkv, he])
      rw [hsame, ih m0 h0 kv]
      constructor
      · rintro (hm | ⟨h1, h2⟩)
        · exact Or.inl hm
        · exact Or.inr ⟨List.mem_cons_of_mem _ h1, h2⟩
      · rintro (hm | ⟨h1, h2⟩)
        · exact Or.inl hm
        · rcases List.mem_cons.mp h1 with he | h1
          · left
            rcases List.mem_map.mp ha with ⟨kv0, hkv0, hk0⟩
            have : kv = kv0 := by
              obtain ⟨k1, v1⟩ := kv
              obtain ⟨k0, v0⟩ := kv0
              simp only at he hk0 h2
              have hv0 := h0 (k0, v0) hkv0
              simp only at hv0
              subst he
              subst hk0
              rw [h2, hv0]
            rw [this]; exact hkv0
          · exact Or.inr ⟨h1, h2⟩
    · have happ : dictInsert m0 a (g a) = m0 ++ [(a, g a)] :=
        dictInsert_eq_append m0 a (g a) ha
      have h0' : ∀ kv ∈ m0 ++ [(a, g a)], kv.2 = g kv.1 := by
        intro kv hkv
        rcases List.mem_append.mp hkv with hm | hm
        · exact h0 kv hm
        · simp at hm; rw [hm]
      rw [happ, ih _ h0' kv]
      constructor
      · rintro (hm | ⟨h1, h2⟩)
        · rcases List.mem_append.mp hm with hm | hm
          · exact Or.inl hm
          · simp at hm
            refine Or.inr ⟨?_, ?_⟩
            · rw [hm]; exact List.mem_cons_self _ _
            · rw [hm]
        · exact Or.inr ⟨List.mem_cons_of_mem _ h1, h2⟩
      · rintro (hm | ⟨h1, h2⟩)
        · exact Or.inl (List.mem_append.mpr (Or.inl hm))
        · rcases List.mem_cons.mp h1 with he | h1
          · left
            apply List.mem_append.mpr
            right
            obtain ⟨k1, v1⟩ := kv
            simp only at he h2
            simp [he, h2]
          · exact Or.inr ⟨h1, h2⟩

/-- Inserting a value that agrees with a value function keeps every entry in
agreement with it. -/
lemma dictInsert_valueFun (m : List (String × List String)) (k : String)
    (v : List String) (g : String → List String)
    (h0 : ∀ kv ∈ m, kv.2 = g kv.1) (hv : v = g k) :
    ∀ kv ∈ dictInsert m k v, kv.2 = g kv.1 := by
  intro kv hkv
  by_cases hk : k ∈ dictKeys m
  · rw [dictInsert_eq_self m k v hk
      (fun kv2 hkv2 he => by rw [h0 kv2 hkv2, he, hv])] at hkv
    exact h0 kv hkv
  · rw [dictInsert_eq_append m k v hk] at hkv
    rcases List.mem_append.mp hkv with hm | hm
    · exact h0 kv hm
    · simp at hm; rw [hm, hv]

/-- A key of the inserted dict is an old key or the inserted one. -/
lemma mem_dictKeys_insert (m : List (String × List String)) (k : String)
    (v : List String) (k' : String) (h : k' ∈ dictKeys (dictInsert m k v)) :
    k' ∈ dictKeys m ∨ k' = k := by
  rw [dictKeys_insert] at h
  by_cases hk : k ∈ dictKeys m
  · rw [if_pos hk] at h; exact Or.inl h
  · rw [if_neg hk] at h
    rcases List.mem_append.mp h with hm | hm
    · exact Or.inl hm
    · simp at hm; exact Or.inr hm

/-- Union of the values after an insertion that agrees with a value
function. -/
lemma exists_mem_dictInsert (m : List (String × List String)) (k : String)
    (v : List String) (g : String → List String)
    (h0 : ∀ kv ∈ m, kv.2 = g kv.1) (hv : v = g k) (x : String) :
    (∃ kv ∈ dictInsert m k v, x ∈ kv.2) ↔ (∃ kv ∈ m, x ∈ kv.2) ∨ x ∈ v := by
  by_cases hk : k ∈ dictKeys m
  · rw [dictInsert_eq_self m k v hk
      (fun kv2 hkv2 he => by rw [h0 kv2 hkv2, he, hv])]
    constructor
    · exact Or.inl
    · rintro (hm | hx)
      · exact hm
      · rcases List.mem_map.mp hk with ⟨kv0, hkv0, hk0⟩
        refine ⟨kv0, hkv0, ?_⟩
        rw [h0 kv0 hkv0, hk0, ← hv]
        exact hx
  · rw [dictInsert_eq_append m k v hk]
    constructor
    · rintro ⟨kv, hkv, hx⟩
      rcases List.mem_append.mp hkv with hm | hm
      · exact Or.inl ⟨kv, hm, hx⟩
      · simp at hm; right; rw [hm] at hx; exact hx
    · rintro (⟨kv, hkv, hx⟩ | hx)
      · exact ⟨kv, List.mem_append.mpr (Or.inl hkv), hx⟩
      · exact ⟨(k, v), List.mem_append.mpr (Or.inr (by simp)), hx⟩

/-- The value the frontend main loop stores for a (trimmed, nonempty) input
path whenever it stores one: the identity entry for test files, the
find_direct_test_file result otherwise. -/
def fmValueOf (fs : FS) (readF : String → Option String)
    (extract : String → List String) (workspaceDir fp : String) : List String :=
  if isTestFileFrontend fp then [relpath (joinPath workspaceDir fp) workspaceDir]
  else frontendFindDirectTestFile fs readF extract fp workspaceDir

/-- One frontend main-loop step preserves the loop invariants: the recorded
inputs grow by the trimmed nonempty line, every mapping entry equals the
per-file value, every mapping key was recorded, and the flat list is the union
of the mapping values. -/
lemma frontendStep_spec (fs : FS) (readF : String → Option String)
    (extract : String → List String) (workspaceDir : String) (st : FMState)
    (line : String)
    (h1 : ∀ kv ∈ st.fileToTestsMap, kv.2 = fmValueOf fs readF extract workspaceDir kv.1)
    (h2 : ∀ k ∈ dictKeys st.fileToTestsMap, k ∈ st.sourceFilesList)
    (h3 : ∀ x, x ∈ st.allTestFiles ↔ ∃ kv ∈ st.fileToTestsMap, x ∈ kv.2) :
    ((frontendStep fs readF extract workspaceDir st line).sourceFilesList
        = st.sourceFilesList ++ List.filter (fun s => s != "") [sTrim line])
    ∧ (∀ kv ∈ (frontendStep fs readF extract workspaceDir st line).fileToTestsMap,
        kv.2 = fmValueOf fs readF extract workspaceDir kv.1)
    ∧ (∀ k ∈ dictKeys (frontendStep fs readF extract workspaceDir st line).fileToTestsMap,
        k ∈ (frontendStep fs readF extract workspaceDir st line).sourceFilesList)
    ∧ (∀ x, x ∈ (frontendStep fs readF extract workspaceDir st line).allTestFiles
        ↔ ∃ kv ∈ (frontendStep fs readF extract workspaceDir st line).fileToTestsMap,
            x ∈ kv.2) := by
  by_cases he : sTrim line = ""
  · have hstep : frontendStep fs readF extract workspaceDir st line = st := by
      simp [frontendStep, he]
    rw [hstep]
    refine ⟨by simp [he], h1, h2, h3⟩
  · have hbe : (sTrim line == "") = false := by simpa using he
    have hfil : List.filter (fun s => s != "") [sTrim line] = [sTrim line] := by
      simp [List.filter, bne, hbe]
    by_cases ht : isTestFileFrontend (sTrim line) = true
    · by_cases hp : pexists fs (joinPath workspaceDir (sTrim line)) = true
      · have hstep : frontendStep fs readF extract workspaceDir st line =
            { allTestFiles := st.allTestFiles
                ++ [relpath (joinPath workspaceDir (sTrim line)) workspaceDir],
              sourceFilesList := st.sourceFilesList ++ [sTrim line],
              fileToTestsMap := dictInsert st.fileToTestsMap (sTrim line)
                [relpath (joinPath workspaceDir (sTrim line)) workspaceDir] } := by
          simp [frontendStep, hbe, ht, hp]
        have hv : [relpath (joinPath workspaceDir (sTrim line)) workspaceDir]
            = fmValueOf fs readF extract workspaceDir (sTrim line) := by
          simp [fmValueOf, ht]
        rw [hstep]
        refine ⟨by rw [hfil], ?_, ?_, ?_⟩
        · exact dictInsert_valueFun _ _ _ _ h1 hv
        · intro k hk
          rcases mem_dictKeys_insert _ _ _ _ hk with hm | rfl
          · exact List.mem_append.mpr (Or.inl (h2 k hm))
          · exact List.mem_append.mpr (Or.inr (by simp))
        · intro x
          rw [List.mem_append,
            exists_mem_dictInsert _ _ _ _ h1 hv, h3]
      · have hstep : frontendStep fs readF extract workspaceDir st line =
            { st with sourceFilesList := st.sourceFilesList ++ [sTrim line] } := by
          simp [frontendStep, hbe, ht, hp]
        rw [hstep]
        refine ⟨by rw [hfil], h1, ?_, h3⟩
        intro k hk
        exact List.mem_append.mpr (Or.inl (h2 k hk))
    · have ht' : isTestFileFrontend (sTrim line) = false := by simpa using ht
      have hv : frontendFindDirectTestFile fs readF extract (sTrim line) workspaceDir
          = fmValueOf fs readF extract workspaceDir (sTrim line) := by
        simp [fmValueOf, ht']
      by_cases hemp :
          (frontendFindDirectTestFile fs readF extract (sTrim line) workspaceDir).isEmpty = true
      · have hnil : frontendFindDirectTestFile fs readF extract (sTrim line) workspaceDir
            = [] := by simpa [List.isEmpty_iff] using hemp
        have hstep : frontendStep fs readF extract workspaceDir st line =
            { allTestFiles := st.allTestFiles,
              sourceFilesList := st.sourceFilesList ++ [sTrim line],
              fileToTestsMap := dictInsert st.fileToTestsMap (sTrim line) [] } := by
          simp [frontendStep, hbe, ht', hemp]
        rw [hstep]
        have hv0 : ([] : List String) = fmValueOf fs readF extract workspaceDir (sTrim line) := by
          rw [← hv, hnil]
        refine ⟨by rw [hfil], ?_, ?_, ?_⟩
        · exact dictInsert_valueFun _ _ _ _ h1 hv0
        · intro k hk
          rcases mem_dictKeys_insert _ _ _ _ hk with hm | rfl
          · exact List.mem_append.mpr (Or.inl (h2 k hm))
          · exact List.mem_append.mpr (Or.inr (by simp))
        · intro x
          rw [exists_mem_dictInsert _ _ _ _ h1 hv0, h3]
          simp
      · have hstep : frontendStep fs readF extract workspaceDir st line =
            { allTestFiles := st.allTestFiles
                ++ frontendFindDirectTestFile fs readF extract (sTrim line) workspaceDir,
              sourceFilesList := st.sourceFilesList ++ [sTrim line],
              fileToTestsMap := dictInsert st.fileToTestsMap (sTrim line)
                (frontendFindDirectTestFile fs readF extract (sTrim line) workspaceDir) } := by
          simp [frontendStep, hbe, ht', hemp]
        rw [hstep]
        refine ⟨by rw [hfil], ?_, ?_, ?_⟩
        · exact dictInsert_valueFun _ _ _ _ h1 hv
        · intro k hk
          rcases mem_dictKeys_insert _ _ _ _ hk with hm | rfl
          · exact List.mem_append.mpr (Or.inl (h2 k hm))
          · exact List.mem_append.mpr (Or.inr (by simp))
        · intro x
          rw [List.mem_append, exists_mem_dictInsert _ _ _ _ h1 hv, h3]

/-- The frontend main-loop invariants, folded over all input lines. -/
lemma frontendLoop_master (fs : FS) (readF : String → Option String)
    (extract : String → List String) (workspaceDir : String) :
    ∀ (lines : List String) (st : FMState),
    (∀ kv ∈ st.fileToTestsMap, kv.2 = fmValueOf fs readF extract workspaceDir kv.1) →
    (∀ k ∈ dictKeys st.fileToTestsMap, k ∈ st.sourceFilesList) →
    (∀ x, x ∈ st.allTestFiles ↔ ∃ kv ∈ st.fileToTestsMap, x ∈ kv.2) →
    ((lines.foldl (frontendStep fs readF extract workspaceDir) st).sourceFilesList
        = st.sourceFilesList ++ (lines.map sTrim).filter (fun s => s != ""))
    ∧ (∀ kv ∈ (lines.foldl (frontendStep fs readF extract workspaceDir) st).fileToTestsMap,
        kv.2 = fmValueOf fs readF extract workspaceDir kv.1)
    ∧ (∀ k ∈ dictKeys (lines.foldl (frontendStep fs readF extract workspaceDir) st).fileToTestsMap,
        k ∈ (lines.foldl (frontendStep fs readF extract workspaceDir) st).sourceFilesList)
    ∧ (∀ x, x ∈ (lines.foldl (frontendStep fs readF extract workspaceDir) st).allTestFiles
        ↔ ∃ kv ∈ (lines.foldl (frontendStep fs readF extract workspaceDir) st).fileToTestsMap,
            x ∈ kv.2) := by
  intro lines
  induction lines with
  | nil =>
    intro st h1 h2 h3
    exact ⟨by simp, h1, h2, h3⟩
  | cons a t ih =>
    intro st h1 h2 h3
    obtain ⟨s1, s2, s3, s4⟩ := frontendStep_spec fs readF extract workspaceDir st a h1 h2 h3
    obtain ⟨r1, r2, r3, r4⟩ := ih (frontendStep fs readF extract workspaceDir st a) s2 s3 s4
    refine ⟨?_, ?_, ?_, ?_⟩
    · simp only [List.foldl_cons]
      rw [r1, s1]
      simp only [List.map_cons, List.filter_cons, List.append_assoc]
      by_cases hea : sTrim a = ""
      · simp [hea]
      · simp [hea]
    · simpa only [List.foldl_cons] using r2
    · simpa only [List.foldl_cons] using r3
    · simpa only [List.foldl_cons] using r4

/-- One backend main-loop step preserves the loop invariants: every mapping
entry is a nonempty find_direct_test_file result of a non-test key, and every
value element is in the flat list. -/
lemma backendStep_spec (fs : FS) (workspaceDir : String) (st : BMState)
    (line : String)
    (h1 : ∀ kv ∈ st.fileToTestsMap,
      kv.2 = backendFindDirectTestFile fs kv.1 workspaceDir)
    (h2 : ∀ k ∈ dictKeys st.fileToTestsMap, isTestFileBackend k = false)
    (h3 : ∀ x, (∃ kv ∈ st.fileToTestsMap, x ∈ kv.2) → x ∈ st.allTestFiles) :
    (∀ kv ∈ (backendStep fs workspaceDir st line).fileToTestsMap,
      kv.2 = backendFindDirectTestFile fs kv.1 workspaceDir)
    ∧ (∀ k ∈ dictKeys (backendStep fs workspaceDir st line).fileToTestsMap,
        isTestFileBackend k = false)
    ∧ (∀ x, (∃ kv ∈ (backendStep fs workspaceDir st line).fileToTestsMap, x ∈ kv.2)
        → x ∈ (backendStep fs workspaceDir st line).allTestFiles) := by
  by_cases he : sTrim line = ""
  · have hstep : backendStep fs workspaceDir st line = st := by
      simp [backendStep, he]
    rw [hstep]
    exact ⟨h1, h2, h3⟩
  · have hbe : (sTrim line == "") = false := by simpa using he
    by_cases ht : isTestFileBackend (sTrim line) = true
    · cases hfind : (backendFullPaths (sTrim line) workspaceDir).find?
          (fun p => pexists fs p) with
      | none =>
        have hstep : backendStep fs workspaceDir st line = st := by
          simp [backendStep, hbe, ht, hfind]
        rw [hstep]
        exact ⟨h1, h2, h3⟩
      | some resolved =>
        have hstep : backendStep fs workspaceDir st line =
            { st with allTestFiles := st.allTestFiles ++ [resolved] } := by
          simp [backendStep, hbe, ht, hfind]
        rw [hstep]
        exact ⟨h1, h2, fun x hx => List.mem_append.mpr (Or.inl (h3 x hx))⟩
    · have ht' : isTestFileBackend (sTrim line) = false := by simpa using ht
      by_cases hemp : (backendFindDirectTestFile fs (sTrim line) workspaceDir).isEmpty = true
      · have hstep : backendStep fs workspaceDir st line = st := by
          simp [backendStep, hbe, ht', hemp]
        rw [hstep]
        exact ⟨h1, h2, h3⟩
      · have hstep : backendStep fs workspaceDir st line =
            { allTestFiles := st.allTestFiles
                ++ backendFindDirectTestFile fs (sTrim line) workspaceDir,
              fileToTestsMap := dictInsert st.fileToTestsMap (sTrim line)
                (backendFindDirectTestFile fs (sTrim line) workspaceDir) } := by
          simp [backendStep, hbe, ht', hemp]
        rw [hstep]
        refine ⟨?_, ?_, ?_⟩
        · exact dictInsert_valueFun _ _ _
            (fun k => backendFindDirectTestFile fs k workspaceDir) h1 rfl
        · intro k hk
          rcases mem_dictKeys_insert _ _ _ _ hk with hm | rfl
          · exact h2 k hm
          · exact ht'
        · intro x hx
          rw [exists_mem_dictInsert _ _ _
            (fun k => backendFindDirectTestFile fs k workspaceDir) h1 rfl] at hx
          rcases hx with hm | hx
          · exact List.mem_append.mpr (Or.inl (h3 x hm))
          · exact List.mem_append.mpr (Or.inr hx)

/-- The backend main-loop invariants, folded over all input lines. -/
lemma backendLoop_master (fs : FS) (workspaceDir : String) :
    ∀ (lines : List String) (st : BMState),
    (∀ kv ∈ st.fileToTestsMap,
      kv.2 = backendFindDirectTestFile fs kv.1 workspaceDir) →
    (∀ k ∈ dictKeys st.fileToTestsMap, isTestFileBackend k = false) →
    (∀ x, (∃ kv ∈ st.fileToTestsMap, x ∈ kv.2) → x ∈ st.allTestFiles) →
    (∀ kv ∈ (lines.foldl (backendStep fs workspaceDir) st).fileToTestsMap,
      kv.2 = backendFindDirectTestFile fs kv.1 workspaceDir)
    ∧ (∀ k ∈ dictKeys (lines.foldl (backendStep fs workspaceDir) st).fileToTestsMap,
        isTestFileBackend k = false)
    ∧ (∀ x, (∃ kv ∈ (lines.foldl (backendStep fs workspaceDir) st).fileToTestsMap, x ∈ kv.2)
        → x ∈ (lines.foldl (backendStep fs workspaceDir) st).allTestFiles) := by
  intro lines
  induction lines with
  | nil =>
    intro st h1 h2 h3
    exact ⟨h1, h2, h3⟩
  | cons a t ih =>
    intro st h1 h2 h3
    obtain ⟨s1, s2, s3⟩ := backendStep_spec fs workspaceDir st a h1 h2 h3
    simpa only [List.foldl_cons] using ih (backendStep fs workspaceDir st a) s1 s2 s3

/-- C4 (counterexample): the claim says that for "./helpers" inside
src/a/b.test.ts, when src/a/helpers.ts is absent but src/a/helpers/index.ts
exists, the index file is returned. In fact os.path.exists is true for the
directory src/a/helpers (it contains index.ts), so the no-suffix probe fires
first and the resolver returns the directory path, not the index file. -/
theorem relative_resolution_returns_directory_not_index :
    resolveImportToFilepath ⟨["/r/src/a/helpers/index.ts", "/r/src/a/b.test.ts"]⟩
      "./helpers" "/r" "/r/src/a/b.test.ts" = some "/r/src/a/helpers"
    ∧ resolveImportToFilepath ⟨["/r/src/a/helpers/index.ts", "/r/src/a/b.test.ts"]⟩
      "./helpers" "/r" "/r/src/a/b.test.ts" ≠ some "/r/src/a/helpers/index.ts"
    ∧ "/r/src/a/helpers" ∉ (["/r/src/a/helpers/index.ts", "/r/src/a/b.test.ts"] : List String) := by
  refine ⟨by decide, by decide, by decide⟩

/-- C4 (amended): for the relative specifier "./helpers" inside
src/a/b.test.ts the probe order is: bare path, then each extension in source
order, then the index forms, first existing path wins and at most one path is
returned — where existence includes directories. Hence (1) helpers.ts is
returned when neither the bare path (as file or directory) nor helpers.js
exists; (2) when src/a/helpers/index.ts exists, the bare probe hits the
directory and the directory path src/a/helpers is returned instead of the
index file; (3) when no probed suffix exists at all, the resolver returns no
result. -/
theorem relative_resolution_probe_order :
    ∀ fs : FS,
    (pexists fs "/r/src/a/helpers" = false →
      pexists fs "/r/src/a/helpers.js" = false →
      pexists fs "/r/src/a/helpers.ts" = true →
      resolveImportToFilepath fs "./helpers" "/r" "/r/src/a/b.test.ts"
        = some "/r/src/a/helpers.ts")
    ∧ ("/r/src/a/helpers/index.ts" ∈ fs.files →
      resolveImportToFilepath fs "./helpers" "/r" "/r/src/a/b.test.ts"
        = some "/r/src/a/helpers")
    ∧ ((∀ q ∈ resolveProbeExts.map (fun ext => "/r/src/a/helpers" ++ ext),
        pexists fs q = false) →
      resolveImportToFilepath fs "./helpers" "/r" "/r/src/a/b.test.ts" = none) := by
  intro fs
  have e : resolveImportToFilepath fs "./helpers" "/r" "/r/src/a/b.test.ts"
      = List.find? (fun q => pexists fs q)
        ["/r/src/a/helpers", "/r/src/a/helpers.js", "/r/src/a/helpers.ts",
         "/r/src/a/helpers.tsx", "/r/src/a/helpers.jsx", "/r/src/a/helpers.svelte",
         "/r/src/a/helpers.mjs", "/r/src/a/helpers.cjs", "/r/src/a/helpers/index.js",
         "/r/src/a/helpers/index.ts", "/r/src/a/helpers/index.svelte"] := rfl
  refine ⟨?_, ?_, ?_⟩
  · intro h0 hjs hts
    rw [e, List.find?_cons_of_neg _ (by simp [h0]),
      List.find?_cons_of_neg _ (by simp [hjs]),
      List.find?_cons_of_pos _ (by simp [hts])]
  · intro hidx
    have hany : fs.files.any
        (fun f => sIsPrefixOf (normPath "/r/src/a/helpers" ++ "/") f) = true :=
      List.any_eq_true.mpr ⟨_, hidx, by decide⟩
    have h1 : pexists fs "/r/src/a/helpers" = true := by
      rw [pexists]
      simp only [hany, Bool.or_true]
    rw [e, List.find?_cons_of_pos _ (by simp [h1])]
  · intro hall
    have hmap : resolveProbeExts.map (fun ext => "/r/src/a/helpers" ++ ext)
        = ["/r/src/a/helpers", "/r/src/a/helpers.js", "/r/src/a/helpers.ts",
           "/r/src/a/helpers.tsx", "/r/src/a/helpers.jsx", "/r/src/a/helpers.svelte",
           "/r/src/a/helpers.mjs", "/r/src/a/helpers.cjs", "/r/src/a/helpers/index.js",
           "/r/src/a/helpers/index.ts", "/r/src/a/helpers/index.svelte"] := by decide
    rw [e]
    apply List.find?_eq_none.mpr
    intro q hq
    have hverif := hall q (by rw [hmap]; exact hq)
    simp [hverif]

/-- C4 (witness): the three probe-order conclusions at concrete
filesystems. -/
theorem relative_resolution_probe_order_witness :
    resolveImportToFilepath ⟨["/r/src/a/helpers.ts"]⟩ "./helpers" "/r" "/r/src/a/b.test.ts"
      = some "/r/src/a/helpers.ts"
    ∧ resolveImportToFilepath ⟨["/r/src/a/helpers/index.ts"]⟩ "./helpers" "/r" "/r/src/a/b.test.ts"
      = some "/r/src/a/helpers"
    ∧ resolveImportToFilepath ⟨[]⟩ "./helpers" "/r" "/r/src/a/b.test.ts" = none :=
  ⟨(relative_resolution_probe_order ⟨["/r/src/a/helpers.ts"]⟩).1
      (by decide) (by decide) (by decide),
   (relative_resolution_probe_order ⟨["/r/src/a/helpers/index.ts"]⟩).2.1 (by decide),
   (relative_resolution_probe_order ⟨[]⟩).2.2 (by decide)⟩

/-- C6 (code_bug evidence): a test file with zero extracted import specifiers
is never tested by the content heuristic, because the heuristic sits inside
the for-loop over the extracted specifiers: the matcher returns no match even
though the heuristic itself (run on the same content) matches, and adding one
unrelated specifier makes the very same content match. -/
theorem text_heuristic_skipped_when_no_imports :
    checkImportReferencesFile ⟨[]⟩ (fun _ => some "<button>click</button>") (fun _ => [])
      "/w/tests/a.test.js" "src/ui/button.svelte" "/w" = false
    ∧ contentCheck (fun _ => some "<button>click</button>")
        "/w/tests/a.test.js" "button" "src/ui" = true
    ∧ checkImportReferencesFile ⟨[]⟩ (fun _ => some "<button>click</button>")
        (fun _ => ["vitest"])
        "/w/tests/a.test.js" "src/ui/button.svelte" "/w" = true := by
  refine ⟨by decide, by decide, by decide⟩

/-- C7 (code_bug evidence): a test file whose describe(...) title contains the
derived source name "button" is not recorded as a match: the describe/test/
render/mount/import-destructure patterns are regex-shaped strings tested with
substring containment, so their backslashes and character classes can never
occur in ordinary test code. -/
theorem usage_patterns_never_match_describe_title :
    checkImportReferencesFile ⟨[]⟩
      (fun _ => some "import \x7b describe \x7d from \"vitest\"\ndescribe(\"button flows\", () => f)")
      (fun _ => ["vitest"])
      "/w/tests/b.test.js" "widgets/button.svelte" "/w" = false
    ∧ substrOf "describe(\"button flows\""
        "import \x7b describe \x7d from \"vitest\"\ndescribe(\"button flows\", () => f)" = true := by
  refine ⟨by decide, by decide⟩

/-- C8 (counterexample): in the backend, a parent-directory (directory,
pattern) combination that exists on disk is not returned when a primary
location already produced a hit: the parent tests directory is only probed
when the primary scan found nothing. -/
theorem backend_parent_family_skipped_after_primary_hit :
    backendFindDirectTestFile
      ⟨["/w/backend/core/utils.py", "/w/backend/core/tests/test_utils.py",
        "/w/backend/tests/test_utils.py"]⟩ "backend/core/utils.py" "/w"
      = ["/w/backend/core/tests/test_utils.py"]
    ∧ "/w/backend/tests/test_utils.py"
        ∈ (["/w/backend/core/utils.py", "/w/backend/core/tests/test_utils.py",
            "/w/backend/tests/test_utils.py"] : List String)
    ∧ joinPath (joinPath (dirname (dirname "/w/backend/core/utils.py")) "tests")
        "test_utils.py" = "/w/backend/tests/test_utils.py" := by
  refine ⟨by decide, by decide, by decide⟩

/-- C8 (amended): in the frontend, candidate generation is exhaustive: a path
is produced exactly when some (directory, pattern) combination of the full
cross product exists, with no early exit and no family skipped. In the
backend the primary families are likewise exhaustive, but when the primary
scan produced any hit the result is exactly the deduplicated primary scan and
the parent-directory family is never probed. -/
theorem candidate_generation_exhaustive :
    (∀ (fs : FS) (fp w p : String),
      p ∈ frontendCandidatePhase fs fp w ↔
        ∃ d ∈ frontendRelativeLocations (dirname (joinPath w fp))
            ++ frontendProjectLocations fp w,
          pexists fs d = true ∧
          ∃ pat ∈ frontendTestPatterns (splitext (basename fp)).1
              (splitext (basename fp)).2,
            p = joinPath d pat ∧ pexists fs p = true)
    ∧ (∀ (fs : FS) (f w r : String),
        (backendFullPaths (sTrim f) w).find? (fun q => pexists fs q) = some r →
        scanDirs fs (backendSearchLocations r w)
          (backendTestPatterns (splitext (basename (sTrim f))).1) ≠ [] →
        backendFindDirectTestFile fs f w
          = dedupFirst ((scanDirs fs (backendSearchLocations r w)
              (backendTestPatterns (splitext (basename (sTrim f))).1)).map
              normalizePath)) := by
  constructor
  · intro fs fp w p
    rw [frontendCandidatePhase, ← scanDirs_append, mem_scanDirs]
  · intro fs f w r hfind hne
    have hemp : (scanDirs fs (backendSearchLocations r w)
        (backendTestPatterns (splitext (basename (sTrim f))).1)).isEmpty = false := by
      cases hl : scanDirs fs (backendSearchLocations r w)
          (backendTestPatterns (splitext (basename (sTrim f))).1) with
      | nil => exact absurd hl hne
      | cons a l => rfl
    simp [backendFindDirectTestFile, hfind, hemp]

/-- C8 (witness): a frontend membership instance and a backend primary-only
run at concrete filesystems. -/
theorem candidate_generation_exhaustive_witness :
    ("src/a.test.js" ∈ frontendCandidatePhase ⟨["/w/src/a.js", "/w/src/a.test.js"]⟩ "src/a.js" "/w"
      ↔ ∃ d ∈ frontendRelativeLocations (dirname (joinPath "/w" "src/a.js"))
          ++ frontendProjectLocations "src/a.js" "/w",
        pexists ⟨["/w/src/a.js", "/w/src/a.test.js"]⟩ d = true ∧
        ∃ pat ∈ frontendTestPatterns (splitext (basename "src/a.js")).1
            (splitext (basename "src/a.js")).2,
          "src/a.test.js" = joinPath d pat
            ∧ pexists ⟨["/w/src/a.js", "/w/src/a.test.js"]⟩ "src/a.test.js" = true)
    ∧ backendFindDirectTestFile ⟨["/v/backend/core/u.py", "/v/backend/core/tests/test_u.py"]⟩
        "backend/core/u.py" "/v"
      = dedupFirst ((scanDirs ⟨["/v/backend/core/u.py", "/v/backend/core/tests/test_u.py"]⟩
          (backendSearchLocations "/v/backend/core/u.py" "/v")
          (backendTestPatterns (splitext (basename (sTrim "backend/core/u.py"))).1)).map
          normalizePath) :=
  ⟨candidate_generation_exhaustive.1 ⟨["/w/src/a.js", "/w/src/a.test.js"]⟩ "src/a.js" "/w"
      "src/a.test.js",
   candidate_generation_exhaustive.2 ⟨["/v/backend/core/u.py", "/v/backend/core/tests/test_u.py"]⟩
      "backend/core/u.py" "/v" "/v/backend/core/u.py" (by decide) (by decide)⟩

/-- C9: for an existing non-absent source file, the frontend reference scan
runs exactly when the candidate phase found nothing: with candidates the
result is the deduplicated relative candidate set and is independent of the
file-reading and import-extraction oracles (the reference machinery is never
consulted); with no candidates the result is the deduplicated relative
reference-scan set. -/
theorem reference_scan_iff_no_candidates :
    ∀ (fs : FS) (rf rf' : String → Option String) (ex ex' : String → List String)
      (filePath w : String),
    pexists fs (joinPath w (sTrim filePath)) = true →
    (frontendCandidatePhase fs (sTrim filePath) w ≠ [] →
      frontendFindDirectTestFile fs rf ex filePath w
        = dedupFirst ((frontendCandidatePhase fs (sTrim filePath) w).map
            (fun t => relpath t w))
      ∧ frontendFindDirectTestFile fs rf ex filePath w
        = frontendFindDirectTestFile fs rf' ex' filePath w)
    ∧ (frontendCandidatePhase fs (sTrim filePath) w = [] →
      frontendFindDirectTestFile fs rf ex filePath w
        = dedupFirst ((frontendRefScan fs rf ex (sTrim filePath) w
            (dirname (joinPath w (sTrim filePath)))).map (fun t => relpath t w))) := by
  intro fs rf rf' ex ex' f w hp
  constructor
  · intro hne
    have hemp : (frontendCandidatePhase fs (sTrim f) w).isEmpty = false := by
      cases hl : frontendCandidatePhase fs (sTrim f) w with
      | nil => exact absurd hl hne
      | cons a l => rfl
    constructor
    · simp [frontendFindDirectTestFile, hp, hemp]
    · simp [frontendFindDirectTestFile, hp, hemp]
  · intro hnil
    have hemp : (frontendCandidatePhase fs (sTrim f) w).isEmpty = true := by
      rw [hnil]; rfl
    simp [frontendFindDirectTestFile, hp, hemp]

/-- C9 (witness): a run with candidates (oracle-independent) and a run without
candidates, at concrete filesystems. -/
theorem reference_scan_iff_no_candidates_witness :
    (frontendFindDirectTestFile ⟨["/w/src/a.js", "/w/src/a.test.js"]⟩ (fun _ => none)
        (fun _ => []) "src/a.js" "/w"
      = dedupFirst ((frontendCandidatePhase ⟨["/w/src/a.js", "/w/src/a.test.js"]⟩
          (sTrim "src/a.js") "/w").map (fun t => relpath t "/w"))
    ∧ frontendFindDirectTestFile ⟨["/w/src/a.js", "/w/src/a.test.js"]⟩ (fun _ => none)
        (fun _ => []) "src/a.js" "/w"
      = frontendFindDirectTestFile ⟨["/w/src/a.js", "/w/src/a.test.js"]⟩
          (fun _ => some "x") (fun _ => ["./a"]) "src/a.js" "/w")
    ∧ frontendFindDirectTestFile ⟨["/q/src/b.js"]⟩ (fun _ => none) (fun _ => [])
        "src/b.js" "/q"
      = dedupFirst ((frontendRefScan ⟨["/q/src/b.js"]⟩ (fun _ => none) (fun _ => [])
          (sTrim "src/b.js") "/q" (dirname (joinPath "/q" (sTrim "src/b.js")))).map
          (fun t => relpath t "/q")) :=
  ⟨(reference_scan_iff_no_candidates ⟨["/w/src/a.js", "/w/src/a.test.js"]⟩
      (fun _ => none) (fun _ => some "x") (fun _ => []) (fun _ => ["./a"])
      "src/a.js" "/w" (by decide)).1 (by decide),
   (reference_scan_iff_no_candidates ⟨["/q/src/b.js"]⟩
      (fun _ => none) (fun _ => none) (fun _ => []) (fun _ => [])
      "src/b.js" "/q" (by decide)).2 (by decide)⟩

/-- C10 (counterexample): the claim says any file inside a tests/, test/ or
__tests__/ directory is classified as a test file; a relative path whose
first component is the test directory has no leading slash, so none of the
"/tests/"-style substring checks nor the "/tests"-suffix checks fire, and the
file is not classified, while the same path one level deeper is. -/
theorem top_level_tests_dir_not_classified :
    isTestFileFrontend "tests/helper.js" = false
    ∧ isTestFileFrontend "src/tests/helper.js" = true := by
  refine ⟨by decide, by decide⟩

/-- C10 (amended): a path containing an embedded /tests/, /test/ or
/__tests__/ component, or whose directory string ends in /tests, /test or
/__tests__, is classified as a test file regardless of its base name
(relative paths whose first component is the test directory are missed); and
a classified input line is passed through by the frontend main untouched by
the reference oracles. -/
theorem dir_indicator_classifies_test_file :
    (∀ p : String, frontendDirIndicator p = true → isTestFileFrontend p = true)
    ∧ (∀ (fs : FS) (rf rf' : String → Option String)
        (ex ex' : String → List String) (w p : String),
        isTestFileFrontend p = true → sTrim p = p →
        frontendMain fs rf ex [p] w = frontendMain fs rf' ex' [p] w) := by
  constructor
  · intro p h
    rw [isTestFileFrontend, h, Bool.or_true]
  · intro fs rf rf' ex ex' w p ht htrim
    have hne : p ≠ "" := by
      intro h
      rw [h] at ht
      exact absurd ht (by decide)
    have hbe : (p == "") = false := by simpa using hne
    by_cases hp : pexists fs (joinPath w p) = true
    · simp [frontendMain, frontendStep, htrim, hbe, ht, hp]
    · simp [frontendMain, frontendStep, htrim, hbe, ht, hp]

/-- C10 (witness): the directory indicator classifies src/tests/x.js, and the
single-line frontend run on it is oracle-independent. -/
theorem dir_indicator_classifies_test_file_witness :
    isTestFileFrontend "src/tests/x.js" = true
    ∧ frontendMain ⟨[]⟩ (fun _ => none) (fun _ => []) ["src/tests/x.js"] "/w"
      = frontendMain ⟨[]⟩ (fun _ => some "s") (fun _ => ["./x"]) ["src/tests/x.js"] "/w" :=
  ⟨dir_indicator_classifies_test_file.1 "src/tests/x.js" (by decide),
   dir_indicator_classifies_test_file.2 ⟨[]⟩ (fun _ => none) (fun _ => some "s")
     (fun _ => []) (fun _ => ["./x"]) "/w" "src/tests/x.js" (by decide) (by decide)⟩

/-- Prefix test steps through an equal head. -/
lemma isPrefixOf_cons_same (c : Char) (l1 l2 : List Char) :
    List.isPrefixOf (c :: l1) (c :: l2) = List.isPrefixOf l1 l2 := by
  simp [List.isPrefixOf_cons₂]

/-- Prefix test fails on differing heads. -/
lemma isPrefixOf_cons_ne (c1 c2 : Char) (l1 l2 : List Char)
    (h : (c1 == c2) = false) :
    List.isPrefixOf (c1 :: l1) (c2 :: l2) = false := by
  simp [List.isPrefixOf_cons₂, h]

/-- C5 (counterexample): the specifier $lib/../x passes the $lib/ alias test,
and alias resolution returns /r/src/lib/../x.js, whose normalized form
/r/src/x.js lies outside the alias target directory /r/src/lib: ".." segments
in the specifier are not rejected, so alias resolution can escape its mapped
subtree. -/
theorem alias_resolution_escapes_subtree_via_dotdot :
    resolveImportToFilepath ⟨["/r/src/x.js", "/r/src/lib/d.ts"]⟩ "$lib/../x" "/r" "/r/t.test.js"
      = some "/r/src/lib/../x.js"
    ∧ normPath "/r/src/lib/../x.js" = "/r/src/x.js"
    ∧ sIsPrefixOf "/r/src/lib/" (normPath "/r/src/lib/../x.js") = false
    ∧ normPath "/r/src/lib/../x.js" ≠ "/r/src/lib" := by
  refine ⟨by decide, by decide, by decide, by decide⟩

/-- C5 (amended): for a $lib/ specifier whose remainder does not restart at
the filesystem root, every path alias resolution returns extends the alias
target directory as a written string: it is /r/src/lib/ followed by the
specifier remainder and the probe suffix. The path lies inside the mapped
subtree only when the remainder does not traverse upward: a "../" remainder
(see the counterexample) or a "//"-induced absolute remainder escapes after
normalization. -/
theorem alias_resolution_lexical_prefix :
    ∀ (fs : FS) (rest fwi p : String),
    sStartsWith rest "/" = false →
    resolveImportToFilepath fs ("$lib/" ++ rest) "/r" fwi = some p →
    ∃ tail, p = "/r/src/lib/" ++ tail := by
  intro fs rest fwi p hr hres
  have hdot : sStartsWith ("$lib/" ++ rest) "." = false := by
    rw [sStartsWith, String.data_append]
    exact isPrefixOf_append_of_ne _ _ _ (by decide) (by decide)
  have hlib : sStartsWith ("$lib/" ++ rest) ("$lib" ++ "/") = true := by
    rw [sStartsWith, String.data_append]
    exact isPrefixOf_append_self _ _
  have hcomp : sStartsWith ("$lib/" ++ rest) ("$components" ++ "/") = false := by
    rw [sStartsWith, String.data_append]
    show List.isPrefixOf ('$' :: 'c' :: "omponents/".data)
      ('$' :: 'l' :: ("ib/".data ++ rest.data)) = false
    rw [isPrefixOf_cons_same]
    exact isPrefixOf_cons_ne _ _ _ _ (by decide)
  have hroutes : sStartsWith ("$lib/" ++ rest) ("$routes" ++ "/") = false := by
    rw [sStartsWith, String.data_append]
    show List.isPrefixOf ('$' :: 'r' :: "outes/".data)
      ('$' :: 'l' :: ("ib/".data ++ rest.data)) = false
    rw [isPrefixOf_cons_same]
    exact isPrefixOf_cons_ne _ _ _ _ (by decide)
  have hassets : sStartsWith ("$lib/" ++ rest) ("$assets" ++ "/") = false := by
    rw [sStartsWith, String.data_append]
    show List.isPrefixOf ('$' :: 'a' :: "ssets/".data)
      ('$' :: 'l' :: ("ib/".data ++ rest.data)) = false
    rw [isPrefixOf_cons_same]
    exact isPrefixOf_cons_ne _ _ _ _ (by decide)
  have hstores : sStartsWith ("$lib/" ++ rest) ("$stores" ++ "/") = false := by
    rw [sStartsWith, String.data_append]
    show List.isPrefixOf ('$' :: 's' :: "tores/".data)
      ('$' :: 'l' :: ("ib/".data ++ rest.data)) = false
    rw [isPrefixOf_cons_same]
    exact isPrefixOf_cons_ne _ _ _ _ (by decide)
  have hat : sStartsWith ("$lib/" ++ rest) ("@" ++ "/") = false := by
    rw [sStartsWith, String.data_append]
    show List.isPrefixOf ('@' :: "/".data)
      ('$' :: ("lib/".data ++ rest.data)) = false
    exact isPrefixOf_cons_ne _ _ _ _ (by decide)
  have htilde : sStartsWith ("$lib/" ++ rest) ("~" ++ "/") = false := by
    rw [sStartsWith, String.data_append]
    show List.isPrefixOf ('~' :: "/".data)
      ('$' :: ("lib/".data ++ rest.data)) = false
    exact isPrefixOf_cons_ne _ _ _ _ (by decide)
  have hdrop : sDrop ("$lib/" ++ rest) ("$lib".length + 1) = rest := rfl
  have hjoin : joinPath "/r/src/lib" rest = "/r/src/lib/" ++ rest := by
    rw [joinPath, if_neg (by simp [hr]), if_neg (by decide)]
    rfl
  have hm : aliasMappings "/r" = [("$lib", "/r/src/lib"),
      ("$components", "/r/src/components"), ("$routes", "/r/src/routes"),
      ("$assets", "/r/src/assets"), ("$stores", "/r/src/stores"),
      ("@", "/r/src"), ("~", "/r/src")] := by decide
  have hstep0 : resolveImportToFilepath fs ("$lib/" ++ rest) "/r" fwi
      = resolveAliasLoop fs ("$lib/" ++ rest) (aliasMappings "/r") := by
    simp [resolveImportToFilepath, hdot]
  rw [hstep0, hm] at hres
  simp only [resolveAliasLoop, hlib, hcomp, hroutes, hassets, hstores, hat, htilde,
    hdrop, hjoin, if_true, if_false] at hres
  cases hq : probeFirst fs ("/r/src/lib/" ++ rest) with
  | none =>
    rw [hq] at hres
    simp at hres
  | some q =>
    rw [hq] at hres
    simp only [Option.some.injEq] at hres
    subst hres
    have hqmem : q ∈ resolveProbeExts.map (fun ext => ("/r/src/lib/" ++ rest) ++ ext) := by
      unfold probeFirst at hq
      exact List.mem_of_find?_eq_some hq
    rcases List.mem_map.mp hqmem with ⟨ext, _, heq⟩
    exact ⟨rest ++ ext, by rw [← heq, String.append_assoc]⟩

/-- C5 (witness): the lexical-prefix conclusion at a concrete filesystem and
specifier. -/
theorem alias_resolution_lexical_prefix_witness :
    ∃ tail, "/r/src/lib/x.ts" = "/r/src/lib/" ++ tail :=
  alias_resolution_lexical_prefix ⟨["/r/src/lib/x.ts"]⟩ "x" "/r/t.js" "/r/src/lib/x.ts"
    (by decide) (by decide)

/-- Lookup in a dict whose entries agree with a value function. -/
lemma dictGet_of_mem_valueFun (m : List (String × List String))
    (g : String → List String) (h0 : ∀ kv ∈ m, kv.2 = g kv.1) (k : String)
    (d : List String) (hk : k ∈ dictKeys m) : dictGet m k d = g k := by
  rcases List.mem_map.mp hk with ⟨kv0, hkv0, hk0⟩
  rw [dictGet]
  cases hfind : m.find? (fun kv => kv.1 == k) with
  | none =>
    have hsome : (m.find? (fun kv => kv.1 == k)).isSome := by
      rw [List.find?_isSome]
      exact ⟨kv0, hkv0, by simp [hk0]⟩
    rw [hfind] at hsome
    simp at hsome
  | some kv1 =>
    have hp := List.find?_some hfind
    simp only [beq_iff_eq] at hp
    show kv1.2 = g k
    rw [h0 kv1 (List.mem_of_find?_eq_some hfind), hp]

/-- An element of a defaulted-empty lookup comes from a real entry. -/
lemma mem_dictGet_exists (m : List (String × List String)) (k x : String)
    (hx : x ∈ dictGet m k []) : ∃ kv ∈ m, x ∈ kv.2 := by
  rw [dictGet] at hx
  cases hfind : m.find? (fun kv => kv.1 == k) with
  | none => rw [hfind] at hx; simp at hx
  | some kv1 =>
    rw [hfind] at hx
    exact ⟨kv1, List.mem_of_find?_eq_some hfind, hx⟩

/-- C1 (counterexample): a backend run over the single input utils.py, whose
source file exists but has no test anywhere, writes an empty JSON mapping:
the input path is omitted instead of appearing with an empty array. -/
theorem backend_mapping_omits_untested_input :
    (backendMain ⟨["/w/utils.py"]⟩ ["utils.py"] "/w").2 = []
    ∧ pexists ⟨["/w/utils.py"]⟩ (joinPath "/w" "utils.py") = true := by
  refine ⟨by decide, by decide⟩

/-- C1 (amended): the frontend's related_tests.json mapping contains every
trimmed nonempty input line as a key, in first-occurrence input order, and
each key's value is the stored per-file result, defaulting to the empty list
when the loop stored none; the backend's only JSON mapping omits inputs for
which no test file was found (see the counterexample). -/
theorem frontend_related_mapping_total :
    ∀ (fs : FS) (rf : String → Option String) (ex : String → List String)
      (lines : List String) (w : String),
    dictKeys (frontendMain fs rf ex lines w).2.2
      = dedupFirst ((lines.map sTrim).filter (fun s => s != ""))
    ∧ ∀ s ∈ (lines.map sTrim).filter (fun s => s != ""),
        dictGet (frontendMain fs rf ex lines w).2.2 s ["__missing__"]
          = dictGet (frontendMain fs rf ex lines w).2.1 s [] := by
  intro fs rf ex lines w
  obtain ⟨m1, m2, m3, m4⟩ := frontendLoop_master fs rf ex w lines ⟨[], [], []⟩
    (by intro kv h; exact absurd h (List.not_mem_nil kv))
    (by intro k h; simp [dictKeys] at h)
    (by intro x; simp)
  constructor
  · show dictKeys ((lines.foldl (frontendStep fs rf ex w) ⟨[], [], []⟩).sourceFilesList.foldl
        (fun m s => dictInsert m s
          (dictGet (lines.foldl (frontendStep fs rf ex w) ⟨[], [], []⟩).fileToTestsMap s [])) [])
      = dedupFirst ((lines.map sTrim).filter (fun s => s != ""))
    rw [dictKeys_foldBuild, m1]
    simp only [List.nil_append]
    rfl
  · intro s hs
    show dictGet ((lines.foldl (frontendStep fs rf ex w) ⟨[], [], []⟩).sourceFilesList.foldl
        (fun m s => dictInsert m s
          (dictGet (lines.foldl (frontendStep fs rf ex w) ⟨[], [], []⟩).fileToTestsMap s [])) [])
        s ["__missing__"]
      = dictGet (lines.foldl (frontendStep fs rf ex w) ⟨[], [], []⟩).fileToTestsMap s []
    exact foldBuild_get_mem _ _ [] s ["__missing__"] (by rw [m1]; simpa using hs)

/-- C1 (witness): totality of the frontend mapping on a concrete run whose
only source file has no tests. -/
theorem frontend_related_mapping_total_witness :
    dictKeys (frontendMain ⟨["/z/a.js"]⟩ (fun _ => none) (fun _ => []) ["a.js", "", "a.js"] "/z").2.2
      = dedupFirst (((["a.js", "", "a.js"] : List String).map sTrim).filter (fun s => s != ""))
    ∧ dictGet (frontendMain ⟨["/z/a.js"]⟩ (fun _ => none) (fun _ => [])
        ["a.js", "", "a.js"] "/z").2.2 "a.js" ["__missing__"]
      = dictGet (frontendMain ⟨["/z/a.js"]⟩ (fun _ => none) (fun _ => [])
        ["a.js", "", "a.js"] "/z").2.1 "a.js" [] :=
  ⟨(frontend_related_mapping_total ⟨["/z/a.js"]⟩ (fun _ => none) (fun _ => [])
      ["a.js", "", "a.js"] "/z").1,
   (frontend_related_mapping_total ⟨["/z/a.js"]⟩ (fun _ => none) (fun _ => [])
      ["a.js", "", "a.js"] "/z").2 "a.js" (by decide)⟩

/-- C2 (counterexample): the backend never enters a test-file input into its
mapping: for the existing test file tests_x.py the run produces an empty
mapping (and puts the file into the flat superset only), refuting
resolveAll({S}) == {S: [S]}. -/
theorem backend_mapping_omits_test_file_input :
    isTestFileBackend "tests_x.py" = true
    ∧ pexists ⟨["/w/tests_x.py"]⟩ (joinPath "/w" "tests_x.py") = true
    ∧ (backendMain ⟨["/w/tests_x.py"]⟩ ["tests_x.py"] "/w").2 = []
    ∧ (backendMain ⟨["/w/tests_x.py"]⟩ ["tests_x.py"] "/w").1 = ["/w/tests_x.py"] := by
  refine ⟨by decide, by decide, by decide, by decide⟩

/-- C2 (amended): in the frontend, a trimmed test-file input that exists on
disk and whose relative form is itself maps to exactly the singleton
containing itself in related_tests.json; in the backend, no key of the output
mapping is ever a test file (test-file inputs are omitted, see the
counterexample). -/
theorem test_file_input_maps_to_itself_frontend :
    (∀ (fs : FS) (rf : String → Option String) (ex : String → List String)
        (w S : String),
      sTrim S = S → isTestFileFrontend S = true →
      pexists fs (joinPath w S) = true →
      relpath (joinPath w S) w = S →
      (frontendMain fs rf ex [S] w).2.2 = [(S, [S])])
    ∧ (∀ (fs : FS) (lines : List String) (w k : String),
        k ∈ dictKeys (backendMain fs lines w).2 → isTestFileBackend k = false) := by
  constructor
  · intro fs rf ex w S htrim ht hp hrel
    have hne : S ≠ "" := fun h => by rw [h] at ht; exact absurd ht (by decide)
    have hbe : (S == "") = false := by simpa using hne
    simp [frontendMain, frontendStep, htrim, hbe, ht, hp, hrel, dictInsert,
      dictHasKey, dictGet, List.find?]
  · intro fs lines w k hk
    obtain ⟨b1, b2, b3⟩ := backendLoop_master fs w lines ⟨[], []⟩
      (by intro kv h; exact absurd h (List.not_mem_nil kv))
      (by intro kk h; simp [dictKeys] at h)
      (by intro x hx; simp at hx)
    exact b2 k hk

/-- C2 (witness): the frontend identity entry for an existing test-file input,
and the backend no-test-file-key property on a run with a nonempty mapping. -/
theorem test_file_input_maps_to_itself_frontend_witness :
    (frontendMain ⟨["/w/src/tests/a.test.js"]⟩ (fun _ => none) (fun _ => [])
        ["src/tests/a.test.js"] "/w").2.2
      = [("src/tests/a.test.js", ["src/tests/a.test.js"])]
    ∧ isTestFileBackend "mod.py" = false :=
  ⟨test_file_input_maps_to_itself_frontend.1 ⟨["/w/src/tests/a.test.js"]⟩
     (fun _ => none) (fun _ => []) "/w" "src/tests/a.test.js"
     (by decide) (by decide) (by decide) (by decide),
   test_file_input_maps_to_itself_frontend.2 ⟨["/w2/mod.py", "/w2/tests/test_mod.py"]⟩
     ["mod.py"] "/w2" "mod.py" (by decide)⟩

/-- C3 (counterexample): a backend run on the existing test-file input
test_alpha.py puts the file into the flat superset while the mapping stays
empty: the superset strictly exceeds the union of the mapping values. -/
theorem backend_superset_exceeds_mapping_union :
    (backendMain ⟨["/w/test_alpha.py"]⟩ ["test_alpha.py"] "/w").1 = ["/w/test_alpha.py"]
    ∧ (backendMain ⟨["/w/test_alpha.py"]⟩ ["test_alpha.py"] "/w").2 = [] := by
  refine ⟨by decide, by decide⟩

/-- C3 (amended): in the frontend the deduplicated superset is exactly the
union of the related_tests.json mapping values (both inclusions); in the
backend the superset still contains the union of the mapping values, but can
strictly exceed it on test-file inputs (see the counterexample). -/
theorem superset_eq_mapping_union_frontend :
    (∀ (fs : FS) (rf : String → Option String) (ex : String → List String)
        (lines : List String) (w x : String),
      x ∈ (frontendMain fs rf ex lines w).1
        ↔ ∃ kv ∈ (frontendMain fs rf ex lines w).2.2, x ∈ kv.2)
    ∧ (∀ (fs : FS) (lines : List String) (w x : String),
        (∃ kv ∈ (backendMain fs lines w).2, x ∈ kv.2)
          → x ∈ (backendMain fs lines w).1) := by
  constructor
  · intro fs rf ex lines w x
    obtain ⟨m1, m2, m3, m4⟩ := frontendLoop_master fs rf ex w lines ⟨[], [], []⟩
      (by intro kv h; exact absurd h (List.not_mem_nil kv))
      (by intro k h; simp [dictKeys] at h)
      (by intro y; simp)
    show x ∈ dedupFirst (lines.foldl (frontendStep fs rf ex w) ⟨[], [], []⟩).allTestFiles
      ↔ ∃ kv ∈ ((lines.foldl (frontendStep fs rf ex w) ⟨[], [], []⟩).sourceFilesList.foldl
          (fun m s => dictInsert m s
            (dictGet (lines.foldl (frontendStep fs rf ex w) ⟨[], [], []⟩).fileToTestsMap s [])) []),
          x ∈ kv.2
    rw [mem_dedupFirst, m4]
    constructor
    · rintro ⟨kv, hkv, hx⟩
      have hsrc : kv.1 ∈ (lines.foldl (frontendStep fs rf ex w) ⟨[], [], []⟩).sourceFilesList :=
        m3 kv.1 (List.mem_map.mpr ⟨kv, hkv, rfl⟩)
      have hget : dictGet (lines.foldl (frontendStep fs rf ex w) ⟨[], [], []⟩).fileToTestsMap
          kv.1 [] = fmValueOf fs rf ex w kv.1 :=
        dictGet_of_mem_valueFun _ _ m2 kv.1 [] (List.mem_map.mpr ⟨kv, hkv, rfl⟩)
      refine ⟨(kv.1, dictGet (lines.foldl (frontendStep fs rf ex w) ⟨[], [], []⟩).fileToTestsMap
          kv.1 []), ?_, ?_⟩
      · exact (mem_foldBuild _ _ []
          (by intro kv2 h; exact absurd h (List.not_mem_nil kv2)) _).mpr
          (Or.inr ⟨hsrc, rfl⟩)
      · rw [hget, ← m2 kv hkv]
        exact hx
    · rintro ⟨kv, hkv, hx⟩
      rcases (mem_foldBuild _ _ []
          (by intro kv2 h; exact absurd h (List.not_mem_nil kv2)) kv).mp hkv with
        hnil | ⟨hsrc, hval⟩
      · exact absurd hnil (List.not_mem_nil kv)
      · rw [hval] at hx
        exact mem_dictGet_exists _ _ _ hx
  · intro fs lines w x hx
    obtain ⟨b1, b2, b3⟩ := backendLoop_master fs w lines ⟨[], []⟩
      (by intro kv h; exact absurd h (List.not_mem_nil kv))
      (by intro kk h; simp [dictKeys] at h)
      (by intro y hy; simp at hy)
    show x ∈ dedupFirst (lines.foldl (backendStep fs w) ⟨[], []⟩).allTestFiles
    rw [mem_dedupFirst]
    exact b3 x hx

/-- C3 (witness): the frontend superset/union equivalence on a concrete run
with one matched test, and the backend inclusion at a concrete element. -/
theorem superset_eq_mapping_union_frontend_witness :
    ("lib/a.test.js" ∈ (frontendMain ⟨["/w3/lib/a.js", "/w3/lib/a.test.js"]⟩
        (fun _ => none) (fun _ => []) ["lib/a.js"] "/w3").1
      ↔ ∃ kv ∈ (frontendMain ⟨["/w3/lib/a.js", "/w3/lib/a.test.js"]⟩
          (fun _ => none) (fun _ => []) ["lib/a.js"] "/w3").2.2, "lib/a.test.js" ∈ kv.2)
    ∧ "/w3/tests/test_m.py" ∈ (backendMain ⟨["/w3/m.py", "/w3/tests/test_m.py"]⟩
        ["m.py"] "/w3").1 :=
  ⟨superset_eq_mapping_union_frontend.1 ⟨["/w3/lib/a.js", "/w3/lib/a.test.js"]⟩
     (fun _ => none) (fun _ => []) ["lib/a.js"] "/w3" "lib/a.test.js",
   superset_eq_mapping_union_frontend.2 ⟨["/w3/m.py", "/w3/tests/test_m.py"]⟩
     ["m.py"] "/w3" "/w3/tests/test_m.py"
     ⟨("m.py", ["/w3/tests/test_m.py"]), by decide, by decide⟩⟩
